import Mathlib

/-!
# Timing wheel (`src/timewheel/go/timewheel.go`)

A shallow embedding of the timing-wheel scheduler.  The wheel is a record, the
exported calls and the driver's handlers are functions on that record, and a
finite run is a sequence of events, each one an exported call made by some
caller or one case of the driver's `select`.  A call and the driver's handling
of what the call sent are two events, and other events may fall between them.

Conventions of the embedding
* `uint32` fields are natural numbers; arithmetic that can wrap is reduced
  modulo `2 ^ 32` explicitly.
* `time.Duration` is an integer (nanoseconds).
* `*list.List` is `Option (List Task)`: `none` is the nil pointer that
  `make([]*list.List, n)` leaves in every cell until `Start` fills it.
* `sync.Map` is an association list with `Load`, `Store`, `Delete`.
* a channel is `none` when it is nil and otherwise the list, oldest first, of
  the tasks sent on it whose handler the driver has not run yet.
* a runtime panic is the result `none`.
* `go job(key)` is recorded as the pair `(job, key)` appended to a dispatch log.
-/

namespace timewheel

/-- Identity of a job function: the embedding records which job is started with
which key, not what the job computes. -/
abbrev Job := Nat

/-- The Go struct `Task`. -/
structure Task where
  key : String
  job : Job
  executeAt : Int
  slot : Nat
  circle : Nat
deriving DecidableEq

/-- One `go taskEle.job(taskEle.key)`. -/
abbrev Dispatch := Job × String

/-- The `sync.Map` from key to task. -/
abbrev Records := List (String × Task)

/-- Method `sync.Map.Load`. -/
def Load : Records → String → Option Task
  | [], _ => none
  | (k, t) :: rest, key => if k = key then some t else Load rest key

/-- Method `sync.Map.Delete`. -/
def Delete : Records → String → Records
  | [], _ => []
  | (k, t) :: rest, key => if k = key then Delete rest key else (k, t) :: Delete rest key

/-- Method `sync.Map.Store`. -/
def Store (m : Records) (key : String) (t : Task) : Records :=
  (key, t) :: Delete m key

/-- The Go struct `TimeWheel`.  `ticker` is `none` for the nil ticker; a channel
field is `none` for the nil channel and otherwise holds, oldest first, the
tasks sent on the channel that the driver has not handled yet. -/
structure TimeWheel where
  interval : Int
  ticker : Option Int
  currentSlot : Nat
  slotNum : Nat
  slots : List (Option (List Task))
  addTaskCh : Option (List Task)
  removeTaskCh : Option (List Task)
  taskRecords : Records
  isRun : Bool
deriving DecidableEq

/-- Constructor `NewTimeWheel`: the wheel and the returned error (`none` is nil).
`removeTaskCh` is not made by the source, so it stays nil. -/
def NewTimeWheel (interval : Int) (slotNum : Nat) : TimeWheel × Option String :=
  ({ interval := interval
     ticker := none
     currentSlot := 0
     slotNum := slotNum
     slots := List.replicate slotNum none
     addTaskCh := some []
     removeTaskCh := none
     taskRecords := []
     isRun := false }, none)

/-- Method `Start`: `none` is a panic (the slot loop indexing past the ring, or
`time.NewTicker` called with a non-positive interval); otherwise the wheel
after the call and the returned error. -/
def Start (tw : TimeWheel) : Option (TimeWheel × Option String) :=
  if tw.isRun then some (tw, some "timewheel is already running")
  else if tw.slots.length < tw.slotNum then none
  else if tw.interval ≤ 0 then none
  else some ({ tw with
                slots := List.replicate tw.slotNum (some []) ++ tw.slots.drop tw.slotNum
                ticker := some tw.interval
                isRun := true }, none)

/-- How an exported call that talks to the driver ends: with an error, at the
send of a task that the running driver will receive (the call then returns
nil), or blocked for ever. -/
inductive Call where
  | err (msg : String)
  | sent (task : Task)
  | blocked
deriving DecidableEq

/-- Method `AddTask`: the two key checks, then the send on `addTaskCh`, which
completes only when the channel exists and the driver is running.  The call
itself changes nothing in the wheel; the key is stored later, by the driver. -/
def AddTask (tw : TimeWheel) (key : String) (job : Job) (executeAt : Int) : Call :=
  if key = "" then Call.err "key is empty"
  else match Load tw.taskRecords key with
    | some _ => Call.err "key of job already exists"
    | none =>
      if tw.addTaskCh.isSome && tw.isRun then
        Call.sent { key := key, job := job, executeAt := executeAt, slot := 0, circle := 0 }
      else Call.blocked

/-- Method `RemoveTask`: the registry lookup, then the send on `removeTaskCh`. -/
def RemoveTask (tw : TimeWheel) (key : String) : Call :=
  match Load tw.taskRecords key with
  | none => Call.err "key of job not exists"
  | some task =>
    if tw.removeTaskCh.isSome && tw.isRun then Call.sent task else Call.blocked

/-- Driver handler `removeTask`: the body is `return nil`. -/
def removeTask (tw : TimeWheel) (_task : Task) : TimeWheel := tw

/-- Driver handler `addTask`: `none` is a panic (slot 5 outside the ring, or a
nil list in that cell). -/
def addTask (tw : TimeWheel) (task : Task) : Option TimeWheel :=
  let task1 : Task := { task with slot := 5, circle := 0 }
  match tw.slots[task1.slot]? with
  | none => none
  | some none => none
  | some (some l) =>
    some { tw with
            slots := tw.slots.set task1.slot (some (l ++ [task1]))
            taskRecords := Store tw.taskRecords task1.key task1 }

/-- The loop of `executeTask` over one bucket: the front element is dispatched,
unlinked and deleted from the registry until the list is empty.  Returns the
list that is left, the registry and the dispatch log. -/
def drain : List Task → Records → List Dispatch → List Task × Records × List Dispatch
  | [], recs, log => ([], recs, log)
  | t :: rest, recs, log => drain rest (Delete recs t.key) (log ++ [(t.job, t.key)])

/-- Driver handler `executeTask`: `none` is a panic (current slot outside the
ring, or the remainder by a zero slot count); otherwise the wheel after the
tick and the jobs dispatched by it, in order. -/
def executeTask (tw : TimeWheel) : Option (TimeWheel × List Dispatch) :=
  match tw.slots[tw.currentSlot]? with
  | none => none
  | some taskList =>
    let after : List (Option (List Task)) × Records × List Dispatch :=
      match taskList with
      | none => (tw.slots, tw.taskRecords, [])
      | some l =>
        let r := drain l tw.taskRecords []
        (tw.slots.set tw.currentSlot (some r.1), r.2.1, r.2.2)
    if tw.slotNum = 0 then none
    else some ({ tw with
                  slots := after.1
                  taskRecords := after.2.1
                  currentSlot := ((tw.currentSlot + 1) % 2 ^ 32) % tw.slotNum }, after.2.2)

/-- An event of a run: an exported call made by some caller (`add`, `remove`),
or one case of the `select` in the driver's `run` (`tick` for the ticker,
`recvAdd` for `addTaskCh`, `recvRemove` for `removeTaskCh`). -/
inductive Op where
  | add (key : String) (job : Job) (executeAt : Int)
  | remove (key : String)
  | tick
  | recvAdd
  | recvRemove
deriving DecidableEq

/-- One event.  A call runs its own checks and, when it reaches the send, leaves
its task at the channel; it does not touch the registry or the ring.  The
driver's receive case takes the oldest task waiting at the channel and runs the
handler on it; with nothing waiting it is not taken.  Between a call and the
handling of its task any other event can take place, another call included. -/
def step (tw : TimeWheel) : Op → Option (TimeWheel × List Dispatch)
  | Op.add key job executeAt =>
    match AddTask tw key job executeAt, tw.addTaskCh with
    | Call.sent task, some waiting =>
      some ({ tw with addTaskCh := some (waiting ++ [task]) }, [])
    | _, _ => some (tw, [])
  | Op.remove key =>
    match RemoveTask tw key, tw.removeTaskCh with
    | Call.sent task, some waiting =>
      some ({ tw with removeTaskCh := some (waiting ++ [task]) }, [])
    | _, _ => some (tw, [])
  | Op.tick => executeTask tw
  | Op.recvAdd =>
    match tw.addTaskCh with
    | some (task :: rest) =>
      (addTask { tw with addTaskCh := some rest } task).map fun tw1 => (tw1, [])
    | _ => some (tw, [])
  | Op.recvRemove =>
    match tw.removeTaskCh with
    | some (task :: rest) => some (removeTask { tw with removeTaskCh := some rest } task, [])
    | _ => some (tw, [])

/-- A finite run: the events take place one after the other, the dispatch logs
are concatenated; a panic ends the program. -/
def exec : TimeWheel → List Op → Option (TimeWheel × List Dispatch)
  | tw, [] => some (tw, [])
  | tw, op :: ops =>
    match step tw op with
    | none => none
    | some (tw1, log1) =>
      match exec tw1 ops with
      | none => none
      | some (tw2, log2) => some (tw2, log1 ++ log2)

/-- The tasks of one cell of the ring. -/
def bucketTasks : Option (List Task) → List Task
  | none => []
  | some l => l

/-- The residences of tasks with the given key in one cell, as pairs of the
cell's index `i` and the task. -/
def residentIn (i : Nat) (b : Option (List Task)) (key : String) : List (Nat × Task) :=
  ((bucketTasks b).filter fun t => t.key = key).map fun t => (i, t)

/-- Every residence of a task with the given key in the ring, as pairs of
bucket index and task; the first cell of the list has index `i`. -/
def residentFrom (i : Nat) : List (Option (List Task)) → String → List (Nat × Task)
  | [], _ => []
  | b :: rest, key => residentIn i b key ++ residentFrom (i + 1) rest key

/-- Every residence of a task with the given key in the wheel's ring. -/
def resident (tw : TimeWheel) (key : String) : List (Nat × Task) :=
  residentFrom 0 tw.slots key

/-! ## Concrete wheels and the invariant -/

/-- A freshly started wheel: `NewTimeWheel` followed by a `Start` that returns
nil. -/
def fresh (interval : Int) (slotNum : Nat) : Option TimeWheel :=
  match Start (NewTimeWheel interval slotNum).1 with
  | some (tw, none) => some tw
  | _ => none

/-- The wheel right after `NewTimeWheel` with interval 1 and 10 slots and
`Start`. -/
def readyWheel : TimeWheel :=
  { interval := 1
    ticker := some 1
    currentSlot := 0
    slotNum := 10
    slots := List.replicate 10 (some [])
    addTaskCh := some []
    removeTaskCh := none
    taskRecords := []
    isRun := true }

/-- The wheel `readyWheel` after key a was added, its task handled by the
driver, and five ticks went by: the driver is about to visit the bucket that
holds the task. -/
def dueWheel : TimeWheel :=
  { readyWheel with
    currentSlot := 5
    slots := readyWheel.slots.set 5
      (some [{ key := "a", job := 7, executeAt := 1, slot := 5, circle := 0 }])
    taskRecords := [("a", { key := "a", job := 7, executeAt := 1, slot := 5, circle := 0 })] }

/-- Three due tasks with keys a, b, c as `addTask` stores them. -/
def loadedBucket : List Task :=
  [{ key := "a", job := 7, executeAt := 1, slot := 5, circle := 0 },
   { key := "b", job := 8, executeAt := 2, slot := 5, circle := 0 },
   { key := "c", job := 9, executeAt := 3, slot := 5, circle := 0 }]

/-- The wheel `readyWheel` after keys a, b and c were added in that order,
their tasks handled by the driver, and five ticks went by. -/
def loadedWheel : TimeWheel :=
  { readyWheel with
    currentSlot := 5
    slots := readyWheel.slots.set 5 (some loadedBucket)
    taskRecords :=
      [("c", { key := "c", job := 9, executeAt := 3, slot := 5, circle := 0 }),
       ("b", { key := "b", job := 8, executeAt := 2, slot := 5, circle := 0 }),
       ("a", { key := "a", job := 7, executeAt := 1, slot := 5, circle := 0 })] }

/-- Registry and ring agree on every key: a key that is not in the registry is
resident nowhere, and a key that is in the registry is resident exactly once,
in one bucket, as the very task the registry holds for it. -/
def Sync (tw : TimeWheel) : Prop :=
  ∀ key, (Load tw.taskRecords key = none ∧ resident tw key = []) ∨
    ∃ i t, Load tw.taskRecords key = some t ∧ resident tw key = [(i, t)]

/-- The key is neither in the registry nor the key of a task that still waits
at `addTaskCh` for the driver. -/
def Absent (tw : TimeWheel) (key : String) : Prop :=
  Load tw.taskRecords key = none ∧
    ∀ waiting, tw.addTaskCh = some waiting → ∀ t ∈ waiting, t.key ≠ key

/-- The ring has one cell per slot and the current slot points into it. -/
def Ring (tw : TimeWheel) : Prop :=
  tw.slots.length = tw.slotNum ∧ tw.currentSlot < tw.slotNum

/-- Every cell of the ring holds a list, and every task in it has no lap left
to wait. -/
def AllDue (tw : TimeWheel) : Prop :=
  ∀ b ∈ tw.slots, ∃ l, b = some l ∧ ∀ t ∈ l, t.circle = 0

end timewheel

/-!
# Finite-state machines (`src/fsm/go/fsm/fsm.go`,
`src/go-projects/table_base_fsm/fsm.go`)

Conventions of the embedding
* the `data interface{}` argument is a value of `Data`: nil, a `float64`, or
  a value of any other dynamic type;
* an action is a function that returns its error (`none` is nil) and touches
  neither machine;
* a Go map with string keys is an association list with `mapGet`, `mapSet`;
* a `fmt.Errorf` error is a constructor that carries the formatted values;
* a runtime panic is the result `none`; the mutexes are left out.
-/

namespace golang

/-- A `float64` as far as the comparison operators see it. -/
inductive Float64 where
  | finite (q : ℚ)
  | posInf
  | negInf
  | nan
deriving DecidableEq

/-- The operator `<` on `float64`: false as soon as one side is NaN. -/
def Float64.lt : Float64 → Float64 → Bool
  | Float64.nan, _ => false
  | _, Float64.nan => false
  | Float64.finite a, Float64.finite b => decide (a < b)
  | Float64.finite _, Float64.posInf => true
  | Float64.finite _, Float64.negInf => false
  | Float64.posInf, _ => false
  | Float64.negInf, Float64.negInf => false
  | Float64.negInf, _ => true

/-- A value passed as `data interface{}`. -/
inductive Data where
  | nil
  | float64 (x : Float64)
  | other (shown : String)
deriving DecidableEq

/-- Read of a Go map with string keys. -/
def mapGet {α : Type} : List (String × α) → String → Option α
  | [], _ => none
  | (k, v) :: rest, key => if k = key then some v else mapGet rest key

/-- Assignment `m[key] = v` on a Go map with string keys. -/
def mapSet {α : Type} : List (String × α) → String → α → List (String × α)
  | [], key, v => [(key, v)]
  | (k, w) :: rest, key, v => if k = key then (k, v) :: rest else (k, w) :: mapSet rest key v

end golang

namespace fsm

open golang

/-- The Go type `State`. -/
abbrev State := String

/-- The Go type `Event`. -/
abbrev Event := String

/-- The Go type `Action`. -/
abbrev Action := State → State → Data → Option String

/-- The Go struct `Transition`; a nil action is `none`. -/
structure Transition where
  From : State
  Event : Event
  To : State
  Action : Option Action

/-- The Go struct `FSM`. -/
structure FSM where
  current : State
  transitions : List (State × List (Event × Transition))

/-- The errors `Trigger` makes: the wrapped error of the action, or the
invalid-transition error with the state and event it names. -/
inductive TriggerError where
  | actionFailed (err : String)
  | invalidTransition (current : State) (event : Event)
deriving DecidableEq

/-- Constructor `NewFSM`. -/
def NewFSM (initial : State) : FSM :=
  { current := initial, transitions := [] }

/-- Method `AddTransition`. -/
def AddTransition (f : FSM) (src : State) (event : Event) (dst : State)
    (action : Option Action) : FSM :=
  let inner : List (Event × Transition) :=
    match mapGet f.transitions src with
    | none => []
    | some m => m
  { f with
    transitions := mapSet f.transitions src
      (mapSet inner event { From := src, Event := event, To := dst, Action := action }) }

/-- Method `Trigger`: the machine after the call and the returned error. -/
def Trigger (f : FSM) (event : Event) (data : Data) : FSM × Option TriggerError :=
  match mapGet f.transitions f.current with
  | some transitions =>
    match mapGet transitions event with
    | some transition =>
      match transition.Action with
      | some action =>
        match action f.current transition.To data with
        | some err => (f, some (TriggerError.actionFailed err))
        | none => ({ f with current := transition.To }, none)
      | none => ({ f with current := transition.To }, none)
    | none => (f, some (TriggerError.invalidTransition f.current event))
  | none => (f, some (TriggerError.invalidTransition f.current event))

/-- Method `Current`. -/
def Current (f : FSM) : State := f.current

/-- Method `Reset`. -/
def Reset (f : FSM) (state : State) : FSM := { f with current := state }

/-- One call of `AddTransition` as a value: source state, event, target state,
action. -/
abbrev Registration := State × Event × State × Option Action

/-- The call of `AddTransition` that a registration stands for. -/
def register (f : FSM) (r : Registration) : FSM :=
  AddTransition f r.1 r.2.1 r.2.2.1 r.2.2.2

/-- The transition that a sequence of registrations leaves registered for a
state and an event: the one of the last registration for that pair. -/
def registered : List Registration → State → Event → Option Transition
  | [], _, _ => none
  | r :: rest, s, e =>
    match registered rest s e with
    | some t => some t
    | none =>
      if r.1 = s ∧ r.2.1 = e then
        some { From := r.1, Event := r.2.1, To := r.2.2.1, Action := r.2.2.2 }
      else none

/-- The transition the machine's table holds for a state and an event. -/
def lookup (f : FSM) (s : State) (e : Event) : Option Transition :=
  match mapGet f.transitions s with
  | some m => mapGet m e
  | none => none

/-! ### The machines of `fsm_test.go` -/

/-- Test constant `RED`. -/
def RED : State := "红灯"

/-- Test constant `YELLOW`. -/
def YELLOW : State := "黄灯"

/-- Test constant `GREEN`. -/
def GREEN : State := "绿灯"

/-- Test constant `NEXT`. -/
def NEXT : Event := "下一个"

/-- The machine `trafficLight` of `TestTrafficLight`. -/
def trafficLight : FSM :=
  AddTransition (AddTransition (AddTransition (NewFSM RED) RED NEXT GREEN none)
    GREEN NEXT YELLOW none) YELLOW NEXT RED none

/-- Test variable `itemPrice`. -/
def itemPrice : Float64 := Float64.finite 3

/-- Test function `verifyCoinCount`; the amounts formatted into the last
message are left out. -/
def verifyCoinCount : Action := fun _ _ data =>
  match data with
  | Data.nil => some "投币金额不能为空"
  | Data.other _ => some "投币金额格式错误"
  | Data.float64 coinAmount =>
    if Float64.lt coinAmount itemPrice then some "投币金额不足" else none

/-- Test constant `IDLE`. -/
def IDLE : State := "空闲等待"

/-- Test constant `ITEM_SELECTED`. -/
def ITEM_SELECTED : State := "已选商品"

/-- Test constant `COIN_INSERTED`. -/
def COIN_INSERTED : State := "已投币"

/-- Test constant `DISPENSING`. -/
def DISPENSING : State := "出货中"

/-- Test constant `SELECT_ITEM`. -/
def SELECT_ITEM : Event := "选择商品"

/-- Test constant `INSERT_COIN`. -/
def INSERT_COIN : Event := "投币"

/-- Test constant `DELIVER`. -/
def DELIVER : Event := "出货"

/-- Test constant `RESET`. -/
def RESET : Event := "重置"

/-- The four registrations of `TestVendingMachine`. -/
def vendingRegistrations : List Registration :=
  [(IDLE, SELECT_ITEM, ITEM_SELECTED, none),
   (ITEM_SELECTED, INSERT_COIN, COIN_INSERTED, some verifyCoinCount),
   (COIN_INSERTED, DELIVER, DISPENSING, none),
   (DISPENSING, RESET, IDLE, none)]

/-- The machine `vendingFSM` of `TestVendingMachine`. -/
def vendingFSM : FSM :=
  vendingRegistrations.foldl register (NewFSM IDLE)

end fsm

namespace table_base_fsm

open golang

/-- The Go type `State`. -/
abbrev State := Int

/-- The Go type `Event`. -/
abbrev Event := Int

/-- The Go type `Action`. -/
abbrev Action := State → State → Data → Option String

/-- The Go struct `Transition`. -/
structure Transition where
  From : State
  Event : Event
  To : State
  ActionIndex : Int
deriving DecidableEq

/-- The Go struct `TableBasedFSM`. -/
structure TableBasedFSM where
  transitionTable : List (List Transition)
  actionTable : List Action
  currentState : State

/-- Constant `INVALID_STATE`. -/
def INVALID_STATE : Int := -1

/-- Constant `INVALID_EVENT`. -/
def INVALID_EVENT : Int := -1

/-- Constant `INVALID_ACTION`. -/
def INVALID_ACTION : Int := -1

/-- Indexing of a slice by an `int`: `none` is the index-out-of-range panic. -/
def index {α : Type} (l : List α) (i : Int) : Option α :=
  if i < 0 then none else l[i.toNat]?

/-- Constructor `NewTableBasedFSMWithTable`: `none` is one of its three
panics. -/
def NewTableBasedFSMWithTable (transitionTable : List (List Transition))
    (actionTable : List Action) (initialState : State) : Option TableBasedFSM :=
  match transitionTable with
  | [] => none
  | row0 :: _ =>
    if row0.length = 0 then none
    else if initialState < 0 ∨ (transitionTable.length : Int) ≤ initialState then none
    else some { transitionTable := transitionTable
                actionTable := actionTable
                currentState := initialState }

/-- Method `isValidTransition`. -/
def isValidTransition (transition : Transition) : Bool :=
  !(transition.From == 0 && transition.Event == 0 && transition.To == 0
    && transition.ActionIndex == 0)

/-- The errors `Trigger` makes, each with the values its message is formatted
from: invalid event, invalid transition, action index out of range, and the
wrapped error of the action. -/
inductive TriggerError where
  | invalidEvent (event : Event) (last : Int)
  | invalidTransition (current : State) (event : Event)
  | actionIndex (idx : Int) (len : Int)
  | actionFailed (err : String)
deriving DecidableEq

/-- Method `Trigger`: `none` is a panic (no first row, or a table lookup out of
range); otherwise the machine after the call and the returned error. -/
def Trigger (fsm : TableBasedFSM) (event : Event) (data : Data) :
    Option (TableBasedFSM × Option TriggerError) :=
  match fsm.transitionTable[0]? with
  | none => none
  | some row0 =>
    if event < 0 ∨ (row0.length : Int) ≤ event then
      some (fsm, some (TriggerError.invalidEvent event ((row0.length : Int) - 1)))
    else
      match index fsm.transitionTable fsm.currentState with
      | none => none
      | some row =>
        match index row event with
        | none => none
        | some transition =>
          if !isValidTransition transition then
            some (fsm, some (TriggerError.invalidTransition fsm.currentState event))
          else if transition.ActionIndex ≠ INVALID_ACTION then
            if transition.ActionIndex < 0
                ∨ (fsm.actionTable.length : Int) ≤ transition.ActionIndex then
              some (fsm, some (TriggerError.actionIndex transition.ActionIndex
                fsm.actionTable.length))
            else
              match index fsm.actionTable transition.ActionIndex with
              | none => none
              | some action =>
                match action transition.From transition.To data with
                | some err => some (fsm, some (TriggerError.actionFailed err))
                | none => some ({ fsm with currentState := transition.To }, none)
          else some ({ fsm with currentState := transition.To }, none)

/-- Method `CurrentState`. -/
def CurrentState (fsm : TableBasedFSM) : State := fsm.currentState

/-- The loop of `GetAvailableEvents` over the event numbers still to visit. -/
def availableLoop (fsm : TableBasedFSM) :
    List Nat → List Event → Option (List Event)
  | [], events => some events
  | event :: rest, events =>
    match index fsm.transitionTable fsm.currentState with
    | none => none
    | some row =>
      match row[event]? with
      | none => none
      | some transition =>
        availableLoop fsm rest
          (if isValidTransition transition then events ++ [(event : Int)] else events)

/-- Method `GetAvailableEvents`: `none` is a panic; otherwise the machine, which
the method only reads, and the events it returns. -/
def GetAvailableEvents (fsm : TableBasedFSM) : Option (TableBasedFSM × List Event) :=
  match fsm.transitionTable[0]? with
  | none => none
  | some row0 =>
    match availableLoop fsm (List.range row0.length) [] with
    | none => none
    | some events => some (fsm, events)

/-- Method `Reset`. -/
def Reset (fsm : TableBasedFSM) (state : State) : TableBasedFSM :=
  { fsm with currentState := state }

/-- A call made on a machine after its construction. -/
inductive Op where
  | trigger (event : Event) (data : Data)
  | reset (state : State)

/-- A finite sequence of calls; `none` when one of them panics. -/
def exec : TableBasedFSM → List Op → Option TableBasedFSM
  | fsm, [] => some fsm
  | fsm, Op.trigger event data :: rest =>
    match Trigger fsm event data with
    | none => none
    | some (fsm1, _) => exec fsm1 rest
  | fsm, Op.reset state :: rest => exec (Reset fsm state) rest

/-- Every row of the table has as many cells as the first one. -/
def Rectangular (table : List (List Transition)) : Prop :=
  ∀ row0, table[0]? = some row0 → ∀ row ∈ table, row.length = row0.length

/-! ### The machine of `fsm_test.go` -/

/-- Test constant `VENDING_IDLE`. -/
def VENDING_IDLE : State := 0

/-- Test constant `VENDING_ITEM_SELECTED`. -/
def VENDING_ITEM_SELECTED : State := 1

/-- Test constant `VENDING_COIN_INSERTED`. -/
def VENDING_COIN_INSERTED : State := 2

/-- Test constant `VENDING_DISPENSING`. -/
def VENDING_DISPENSING : State := 3

/-- Test constant `VENDING_STATE_MAX`. -/
def VENDING_STATE_MAX : State := 4

/-- Test constant `VENDING_SELECT_ITEM`. -/
def VENDING_SELECT_ITEM : Event := 0

/-- Test constant `VENDING_INSERT_COIN`. -/
def VENDING_INSERT_COIN : Event := 1

/-- Test constant `VENDING_DELIVER`. -/
def VENDING_DELIVER : Event := 2

/-- Test constant `VENDING_RESET`. -/
def VENDING_RESET : Event := 3

/-- The zero value `Transition{}` that fills the unused cells. -/
def emptyCell : Transition := { From := 0, Event := 0, To := 0, ActionIndex := 0 }

/-- Test variable `VendingMachineTransitionTable`. -/
def VendingMachineTransitionTable : List (List Transition) :=
  [[{ From := VENDING_IDLE, Event := VENDING_SELECT_ITEM, To := VENDING_ITEM_SELECTED,
      ActionIndex := 0 }, emptyCell, emptyCell, emptyCell],
   [emptyCell,
    { From := VENDING_ITEM_SELECTED, Event := VENDING_INSERT_COIN,
      To := VENDING_COIN_INSERTED, ActionIndex := 1 }, emptyCell, emptyCell],
   [emptyCell, emptyCell,
    { From := VENDING_COIN_INSERTED, Event := VENDING_DELIVER, To := VENDING_DISPENSING,
      ActionIndex := 0 }, emptyCell],
   [emptyCell, emptyCell, emptyCell,
    { From := VENDING_DISPENSING, Event := VENDING_RESET, To := VENDING_IDLE,
      ActionIndex := 0 }]]

/-- Entry 0 of `VendingMachineActionTable`: the logging action. -/
def logAction : Action := fun _ _ _ => none

/-- Entry 1 of `VendingMachineActionTable`: the coin check; the amounts
formatted into the last message are left out, and so is the printed change. -/
def coinAction : Action := fun _ _ data =>
  match data with
  | Data.nil => some "投币金额不能为空"
  | Data.other _ => some "投币金额格式错误"
  | Data.float64 coinAmount =>
    if Float64.lt coinAmount (Float64.finite 3) then some "投币金额不足" else none

/-- Test variable `VendingMachineActionTable`. -/
def VendingMachineActionTable : List Action := [logAction, coinAction]

/-- The machine `vendingFSM` of `TestTableBasedFSM`, as the constructor returns
it. -/
def vendingFSM : Option TableBasedFSM :=
  NewTableBasedFSMWithTable VendingMachineTransitionTable VendingMachineActionTable
    VENDING_IDLE

/-- Whether the result of `Trigger` is one of its two rejections: invalid event
or invalid transition. -/
def rejectedAsInvalid : Option TriggerError → Bool
  | some (TriggerError.invalidEvent _ _) => true
  | some (TriggerError.invalidTransition _ _) => true
  | _ => false

/-- Whether cell `n` of a row holds a transition that `isValidTransition`
accepts. -/
def validAt (row : List Transition) (n : Nat) : Bool :=
  match row[n]? with
  | some transition => isValidTransition transition
  | none => false

/-- A table of one state and one event whose only cell is the transition from
state 0 on event 0 back to state 0 with action 0. -/
def selfLoopTable : List (List Transition) :=
  [[{ From := 0, Event := 0, To := 0, ActionIndex := 0 }]]

end table_base_fsm

namespace vending

open golang

/-- The four states that the two vending machines share. -/
inductive VState where
  | idle
  | itemSelected
  | coinInserted
  | dispensing
deriving DecidableEq

/-- The four events that the two vending machines share. -/
inductive VEvent where
  | selectItem
  | insertCoin
  | deliver
  | reset
deriving DecidableEq

/-- The name of a state in the map-based machine. -/
def stateName : VState → fsm.State
  | VState.idle => fsm.IDLE
  | VState.itemSelected => fsm.ITEM_SELECTED
  | VState.coinInserted => fsm.COIN_INSERTED
  | VState.dispensing => fsm.DISPENSING

/-- The number of a state in the table-based machine. -/
def stateIndex : VState → table_base_fsm.State
  | VState.idle => table_base_fsm.VENDING_IDLE
  | VState.itemSelected => table_base_fsm.VENDING_ITEM_SELECTED
  | VState.coinInserted => table_base_fsm.VENDING_COIN_INSERTED
  | VState.dispensing => table_base_fsm.VENDING_DISPENSING

/-- The name of an event in the map-based machine. -/
def eventName : VEvent → fsm.Event
  | VEvent.selectItem => fsm.SELECT_ITEM
  | VEvent.insertCoin => fsm.INSERT_COIN
  | VEvent.deliver => fsm.DELIVER
  | VEvent.reset => fsm.RESET

/-- The number of an event in the table-based machine. -/
def eventIndex : VEvent → table_base_fsm.Event
  | VEvent.selectItem => table_base_fsm.VENDING_SELECT_ITEM
  | VEvent.insertCoin => table_base_fsm.VENDING_INSERT_COIN
  | VEvent.deliver => table_base_fsm.VENDING_DELIVER
  | VEvent.reset => table_base_fsm.VENDING_RESET

/-- The map-based vending machine put in a given state. -/
def mapAt (s : VState) : fsm.FSM := fsm.Reset fsm.vendingFSM (stateName s)

/-- The table-based vending machine put in a given state. -/
def tableAt (s : VState) : table_base_fsm.TableBasedFSM :=
  { transitionTable := table_base_fsm.VendingMachineTransitionTable
    actionTable := table_base_fsm.VendingMachineActionTable
    currentState := stateIndex s }

/-- Step by step, whether `Trigger` of the map-based machine returned an error
and the state it is in afterwards. -/
def mapTrace (f : fsm.FSM) : List (fsm.Event × Data) → List (Bool × fsm.State)
  | [] => []
  | (event, data) :: rest =>
    ((fsm.Trigger f event data).2.isSome, (fsm.Trigger f event data).1.current)
      :: mapTrace (fsm.Trigger f event data).1 rest

/-- Step by step, whether `Trigger` of the table-based machine returned an
error and the state it is in afterwards; `none` when a call panics. -/
def tableTrace (f : table_base_fsm.TableBasedFSM) :
    List (table_base_fsm.Event × Data) → Option (List (Bool × table_base_fsm.State))
  | [] => some []
  | (event, data) :: rest =>
    match table_base_fsm.Trigger f event data with
    | none => none
    | some (f1, err) =>
      match tableTrace f1 rest with
      | none => none
      | some trace => some ((err.isSome, f1.currentState) :: trace)

/-- Whether the coin check lets the data through: a `float64` that is not below
the price 3.0. -/
def coinAccepted : Data → Bool
  | Data.float64 x => !Float64.lt x (Float64.finite 3)
  | _ => false

/-- The vending machine as the tests describe it: the state after an event and
whether the event is refused. -/
def next : VState → VEvent → Data → VState × Bool
  | VState.idle, VEvent.selectItem, _ => (VState.itemSelected, false)
  | VState.itemSelected, VEvent.insertCoin, data =>
    if coinAccepted data then (VState.coinInserted, false) else (VState.itemSelected, true)
  | VState.coinInserted, VEvent.deliver, _ => (VState.dispensing, false)
  | VState.dispensing, VEvent.reset, _ => (VState.idle, false)
  | s, _, _ => (s, true)

end vending

namespace timewheel

/-! ## Lemmas -/

/-! ### The loop over one bucket -/

theorem drain_fst (l : List Task) (recs : Records) (log : List Dispatch) :
    (drain l recs log).1 = [] := by
  induction l generalizing recs log with
  | nil => rfl
  | cons t rest ih => simp only [drain]; exact ih _ _

theorem drain_log (l : List Task) (recs : Records) (log : List Dispatch) :
    (drain l recs log).2.2 = log ++ l.map fun t => (t.job, t.key) := by
  induction l generalizing recs log with
  | nil => simp [drain]
  | cons t rest ih => simp only [drain]; rw [ih]; simp

/-! ### What a successful handler did -/

theorem addTask_some {tw tw1 : TimeWheel} {task : Task} (h : addTask tw task = some tw1) :
    ∃ l, tw.slots[5]? = some (some l) ∧
      tw1 = { tw with
              slots := tw.slots.set 5 (some (l ++ [{ task with slot := 5, circle := 0 }]))
              taskRecords :=
                Store tw.taskRecords task.key { task with slot := 5, circle := 0 } } := by
  simp only [addTask] at h
  cases hb : tw.slots[5]? with
  | none => simp [hb] at h
  | some b =>
    cases b with
    | none => simp [hb] at h
    | some l =>
      simp only [hb, Option.some.injEq] at h
      exact ⟨l, rfl, h.symm⟩

theorem executeTask_some {tw tw1 : TimeWheel} {log : List Dispatch}
    (h : executeTask tw = some (tw1, log)) :
    ∃ b, tw.slots[tw.currentSlot]? = some b ∧ tw.slotNum ≠ 0 ∧
      tw1 = { tw with
              slots := (match b with
                | none => tw.slots
                | some _ => tw.slots.set tw.currentSlot (some []))
              taskRecords := (drain (bucketTasks b) tw.taskRecords []).2.1
              currentSlot := ((tw.currentSlot + 1) % 2 ^ 32) % tw.slotNum } ∧
      log = (bucketTasks b).map fun t => (t.job, t.key) := by
  simp only [executeTask] at h
  cases hb : tw.slots[tw.currentSlot]? with
  | none => simp [hb] at h
  | some b =>
    simp only [hb] at h
    by_cases hz : tw.slotNum = 0
    · simp [hz] at h
    · simp only [hz, if_false, Option.some.injEq, Prod.mk.injEq] at h
      refine ⟨b, rfl, hz, ?_, ?_⟩
      · rw [← h.1]
        cases b with
        | none => rfl
        | some l => simp only [drain_fst, bucketTasks]
      · rw [← h.2]
        cases b with
        | none => rfl
        | some l => simp only [drain_log, bucketTasks, List.nil_append]

theorem exec_cons_some {tw tw2 : TimeWheel} {op : Op} {ops : List Op} {log : List Dispatch}
    (h : exec tw (op :: ops) = some (tw2, log)) :
    ∃ tw1 log1 log2, step tw op = some (tw1, log1) ∧ exec tw1 ops = some (tw2, log2) ∧
      log = log1 ++ log2 := by
  simp only [exec] at h
  cases hs : step tw op with
  | none => simp [hs] at h
  | some r =>
    obtain ⟨tw1, log1⟩ := r
    simp only [hs] at h
    cases he : exec tw1 ops with
    | none => simp [he] at h
    | some r2 =>
      obtain ⟨tw3, log3⟩ := r2
      simp only [he, Option.some.injEq, Prod.mk.injEq] at h
      exact ⟨tw1, log1, log3, rfl, h.1 ▸ he, h.2.symm⟩

theorem step_cases {tw tw1 : TimeWheel} {op : Op} {log : List Dispatch}
    (h : step tw op = some (tw1, log)) :
    (tw1 = tw ∧ log = []) ∨
      (∃ key job executeAt waiting, op = Op.add key job executeAt ∧ key ≠ "" ∧
        Load tw.taskRecords key = none ∧ tw.addTaskCh = some waiting ∧ log = [] ∧
        tw1 = { tw with
                addTaskCh := some (waiting ++
                  [{ key := key, job := job, executeAt := executeAt, slot := 0,
                     circle := 0 }]) }) ∨
      (∃ task waiting, tw.removeTaskCh = some waiting ∧ log = [] ∧
        tw1 = { tw with removeTaskCh := some (waiting ++ [task]) }) ∨
      (∃ task rest, op = Op.recvAdd ∧ tw.addTaskCh = some (task :: rest) ∧ log = [] ∧
        addTask { tw with addTaskCh := some rest } task = some tw1) ∨
      (∃ task rest, tw.removeTaskCh = some (task :: rest) ∧ log = [] ∧
        tw1 = { tw with removeTaskCh := some rest }) ∨
      (op = Op.tick ∧ executeTask tw = some (tw1, log)) := by
  cases op with
  | add key job executeAt =>
    simp only [step] at h
    split at h
    · rename_i task waiting hc hq
      simp only [Option.some.injEq, Prod.mk.injEq] at h
      unfold AddTask at hc
      by_cases hk : key = ""
      · simp [hk] at hc
      · simp only [hk, if_false] at hc
        cases hl : Load tw.taskRecords key with
        | some t => simp [hl] at hc
        | none =>
          simp only [hl] at hc
          split at hc
          · cases hc
            exact Or.inr (Or.inl ⟨key, job, executeAt, waiting, rfl, hk, hl, hq, h.2.symm,
              h.1.symm⟩)
          · cases hc
    · simp only [Option.some.injEq, Prod.mk.injEq] at h
      exact Or.inl ⟨h.1.symm, h.2.symm⟩
  | remove key =>
    simp only [step] at h
    split at h
    · rename_i task waiting hc hq
      simp only [Option.some.injEq, Prod.mk.injEq] at h
      exact Or.inr (Or.inr (Or.inl ⟨task, waiting, hq, h.2.symm, h.1.symm⟩))
    · simp only [Option.some.injEq, Prod.mk.injEq] at h
      exact Or.inl ⟨h.1.symm, h.2.symm⟩
  | tick => exact Or.inr (Or.inr (Or.inr (Or.inr (Or.inr ⟨rfl, h⟩))))
  | recvAdd =>
    simp only [step] at h
    split at h
    · rename_i task rest hq
      cases ha : addTask { tw with addTaskCh := some rest } task with
      | none => simp [ha] at h
      | some tw2 =>
        simp only [ha, Option.map_some', Option.some.injEq, Prod.mk.injEq] at h
        exact Or.inr (Or.inr (Or.inr (Or.inl ⟨task, rest, rfl, hq, h.2.symm, h.1 ▸ ha⟩)))
    · simp only [Option.some.injEq, Prod.mk.injEq] at h
      exact Or.inl ⟨h.1.symm, h.2.symm⟩
  | recvRemove =>
    simp only [step] at h
    split at h
    · rename_i task rest hq
      simp only [removeTask, Option.some.injEq, Prod.mk.injEq] at h
      exact Or.inr (Or.inr (Or.inr (Or.inr (Or.inl ⟨task, rest, hq, h.2.symm, h.1.symm⟩))))
    · simp only [Option.some.injEq, Prod.mk.injEq] at h
      exact Or.inl ⟨h.1.symm, h.2.symm⟩

/-! ### The driver keeps the running flag -/

theorem step_isRun {tw tw1 : TimeWheel} {op : Op} {log : List Dispatch}
    (h : step tw op = some (tw1, log)) : tw1.isRun = tw.isRun := by
  rcases step_cases h with ⟨h1, _⟩ | ⟨_, _, _, _, _, _, _, _, _, h1⟩ | ⟨_, _, _, _, h1⟩ |
    ⟨_, _, _, _, _, ha⟩ | ⟨_, _, _, _, h1⟩ | ⟨_, he⟩
  · rw [h1]
  · rw [h1]
  · rw [h1]
  · obtain ⟨l, _, h1⟩ := addTask_some ha
    rw [h1]
  · rw [h1]
  · obtain ⟨b, _, _, h1, _⟩ := executeTask_some he
    rw [h1]

theorem exec_isRun {ops : List Op} {tw tw1 : TimeWheel} {log : List Dispatch}
    (h : exec tw ops = some (tw1, log)) : tw1.isRun = tw.isRun := by
  induction ops generalizing tw log with
  | nil => simp only [exec, Option.some.injEq, Prod.mk.injEq] at h; rw [h.1]
  | cons op ops ih =>
    obtain ⟨tw2, log1, log2, hs, he, _⟩ := exec_cons_some h
    rw [ih he, step_isRun hs]

/-! ### The registry as a map -/

theorem Load_Delete_same (m : Records) (key : String) : Load (Delete m key) key = none := by
  induction m with
  | nil => rfl
  | cons e rest ih =>
    obtain ⟨k, t⟩ := e
    by_cases hk : k = key
    · simp [Delete, hk, ih]
    · simp [Delete, Load, hk, ih]

theorem Load_Delete_ne (m : Records) {key other : String} (h : other ≠ key) :
    Load (Delete m other) key = Load m key := by
  induction m with
  | nil => rfl
  | cons e rest ih =>
    obtain ⟨k, t⟩ := e
    by_cases hk : k = other
    · have hk2 : k ≠ key := by rw [hk]; exact h
      simp [Delete, Load, hk, hk2, ih, h]
    · simp [Delete, Load, hk, ih]

theorem Load_Delete_none (m : Records) {key : String} (other : String)
    (h : Load m key = none) : Load (Delete m other) key = none := by
  by_cases hk : other = key
  · rw [hk]; exact Load_Delete_same m key
  · rw [Load_Delete_ne m hk]; exact h

theorem Load_Store_same (m : Records) (key : String) (t : Task) :
    Load (Store m key t) key = some t := by
  simp [Store, Load]

theorem Load_Store_ne (m : Records) {key other : String} (t : Task) (h : other ≠ key) :
    Load (Store m other t) key = Load m key := by
  simp [Store, Load, h, Load_Delete_ne m h]

theorem Load_drain_none (l : List Task) (recs : Records) (log : List Dispatch) {key : String}
    (h : Load recs key = none) : Load (drain l recs log).2.1 key = none := by
  induction l generalizing recs log with
  | nil => exact h
  | cons t rest ih => simp only [drain]; exact ih _ _ (Load_Delete_none recs t.key h)

theorem Load_drain_mem (l : List Task) (recs : Records) (log : List Dispatch) {key : String}
    (h : ∃ t ∈ l, t.key = key) : Load (drain l recs log).2.1 key = none := by
  induction l generalizing recs log with
  | nil => obtain ⟨t, ht, _⟩ := h; cases ht
  | cons t rest ih =>
    simp only [drain]
    by_cases hk : t.key = key
    · apply Load_drain_none
      rw [hk]; exact Load_Delete_same recs key
    · apply ih
      obtain ⟨u, hu, huk⟩ := h
      rcases List.mem_cons.mp hu with rfl | hu
      · exact absurd huk hk
      · exact ⟨u, hu, huk⟩

theorem Load_drain_not_mem (l : List Task) (recs : Records) (log : List Dispatch)
    {key : String} (h : ∀ t ∈ l, t.key ≠ key) :
    Load (drain l recs log).2.1 key = Load recs key := by
  induction l generalizing recs log with
  | nil => rfl
  | cons t rest ih =>
    simp only [drain]
    rw [ih _ _ fun u hu => h u (List.mem_cons_of_mem _ hu)]
    exact Load_Delete_ne recs (h t (List.mem_cons_self _ _))

/-! ### A key that is not in the registry stays out until it is added -/

theorem fresh_some {interval : Int} {slotNum : Nat} {tw0 : TimeWheel}
    (h : fresh interval slotNum = some tw0) :
    0 < interval ∧
      tw0 = { interval := interval
              ticker := some interval
              currentSlot := 0
              slotNum := slotNum
              slots := List.replicate slotNum (some [])
              addTaskCh := some []
              removeTaskCh := none
              taskRecords := []
              isRun := true } := by
  by_cases hpos : 0 < interval
  · refine ⟨hpos, ?_⟩
    simp [fresh, Start, NewTimeWheel, not_le.mpr hpos] at h
    exact h.symm
  · simp [fresh, Start, NewTimeWheel, not_lt.mp hpos] at h

theorem step_Absent {tw tw1 : TimeWheel} {op : Op} {log : List Dispatch} {key : String}
    (h : step tw op = some (tw1, log)) (hop : ∀ job executeAt, op ≠ Op.add key job executeAt)
    (ha : Absent tw key) : Absent tw1 key := by
  rcases step_cases h with ⟨h1, _⟩ | ⟨k, job, executeAt, waiting, hopk, _, _, hq, _, h1⟩ |
    ⟨_, _, _, _, h1⟩ | ⟨task, rest, _, hq, _, hadd⟩ | ⟨_, _, _, _, h1⟩ | ⟨_, he⟩
  · rw [h1]; exact ha
  · have hk : k ≠ key := fun e => hop job executeAt (by rw [hopk, e])
    rw [h1]
    refine ⟨ha.1, ?_⟩
    intro q hq1 t ht
    simp only [Option.some.injEq] at hq1
    rw [← hq1] at ht
    rcases List.mem_append.mp ht with ht | ht
    · exact ha.2 waiting hq t ht
    · rw [List.mem_singleton.mp ht]; exact hk
  · rw [h1]; exact ha
  · obtain ⟨l, _, h1⟩ := addTask_some hadd
    have hk : task.key ≠ key := ha.2 _ hq task (List.mem_cons_self _ _)
    rw [h1]
    refine ⟨?_, ?_⟩
    · show Load (Store tw.taskRecords task.key _) key = none
      rw [Load_Store_ne _ _ hk]
      exact ha.1
    · intro q hq1 t ht
      simp only [Option.some.injEq] at hq1
      rw [← hq1] at ht
      exact ha.2 _ hq t (List.mem_cons_of_mem _ ht)
  · rw [h1]; exact ha
  · obtain ⟨b, _, _, h1, _⟩ := executeTask_some he
    rw [h1]
    exact ⟨Load_drain_none _ _ _ ha.1, ha.2⟩

theorem exec_Absent {ops : List Op} {tw tw1 : TimeWheel} {log : List Dispatch}
    {key : String} (h : exec tw ops = some (tw1, log))
    (hops : ∀ job executeAt, Op.add key job executeAt ∉ ops)
    (ha : Absent tw key) : Absent tw1 key := by
  induction ops generalizing tw log with
  | nil => simp only [exec, Option.some.injEq, Prod.mk.injEq] at h; rw [← h.1]; exact ha
  | cons op ops ih =>
    obtain ⟨tw2, log1, log2, hs, he, _⟩ := exec_cons_some h
    apply ih he (fun job executeAt hm => hops job executeAt (List.mem_cons_of_mem _ hm))
    apply step_Absent hs _ ha
    intro job executeAt e
    exact hops job executeAt (by rw [e]; exact List.mem_cons_self _ _)

theorem executeTask_fired_gone {tw tw1 : TimeWheel} {log : List Dispatch} {job : Job}
    {key : String} (h : executeTask tw = some (tw1, log)) (hm : (job, key) ∈ log) :
    Load tw1.taskRecords key = none := by
  obtain ⟨b, _, _, h1, h2⟩ := executeTask_some h
  rw [h2] at hm
  obtain ⟨t, ht, hjk⟩ := List.mem_map.mp hm
  rw [h1]
  apply Load_drain_mem
  exact ⟨t, ht, by simpa using (Prod.mk.inj hjk).2⟩

/-! ### Residences and the update of one cell -/

theorem residentFrom_split {l : List (Option (List Task))} {j : Nat} {b : Option (List Task)}
    (h : l[j]? = some b) (i : Nat) (key : String) :
    residentFrom i l key = residentFrom i (l.take j) key ++
      (residentIn (i + j) b key ++ residentFrom (i + j + 1) (l.drop (j + 1)) key) := by
  induction l generalizing i j with
  | nil => simp at h
  | cons c rest ih =>
    cases j with
    | zero =>
      simp only [List.getElem?_cons_zero, Option.some.injEq] at h
      simp [residentFrom, h]
    | succ j =>
      simp only [List.getElem?_cons_succ] at h
      have e1 : i + (j + 1) = i + 1 + j := by omega
      simp only [List.take_succ_cons, List.drop_succ_cons, residentFrom, List.append_assoc]
      rw [ih h (i + 1), e1]

theorem residentFrom_set {l : List (Option (List Task))} {j : Nat} {b : Option (List Task)}
    (h : l[j]? = some b) (b1 : Option (List Task)) (i : Nat) (key : String) :
    residentFrom i (l.set j b1) key = residentFrom i (l.take j) key ++
      (residentIn (i + j) b1 key ++ residentFrom (i + j + 1) (l.drop (j + 1)) key) := by
  induction l generalizing i j with
  | nil => simp at h
  | cons c rest ih =>
    cases j with
    | zero => simp [residentFrom]
    | succ j =>
      simp only [List.getElem?_cons_succ] at h
      have e1 : i + (j + 1) = i + 1 + j := by omega
      simp only [List.set_cons_succ, List.take_succ_cons, List.drop_succ_cons, residentFrom,
        List.append_assoc]
      rw [ih h (i + 1), e1]

theorem residentFrom_replicate_empty (n i : Nat) (key : String) :
    residentFrom i (List.replicate n (some [])) key = [] := by
  induction n generalizing i with
  | zero => rfl
  | succ n ih => simp [List.replicate_succ, residentFrom, residentIn, bucketTasks, ih]

theorem residentIn_eq_nil {i : Nat} {l : List Task} {key : String}
    (h : ∀ t ∈ l, t.key ≠ key) : residentIn i (some l) key = [] := by
  simp only [residentIn, bucketTasks, List.map_eq_nil_iff, List.filter_eq_nil_iff]
  intro t ht
  simpa using h t ht

theorem residentIn_ne_nil {i : Nat} {l : List Task} {key : String}
    (h : ∃ t ∈ l, t.key = key) : residentIn i (some l) key ≠ [] := by
  obtain ⟨t, ht, hk⟩ := h
  simp only [residentIn, bucketTasks, ne_eq, List.map_eq_nil_iff, List.filter_eq_nil_iff,
    not_forall]
  exact ⟨t, ht, by simpa using hk⟩

theorem residentIn_push (i : Nat) (l : List Task) (t : Task) (key : String) :
    residentIn i (some (l ++ [t])) key
      = residentIn i (some l) key ++ if t.key = key then [(i, t)] else [] := by
  by_cases hk : t.key = key <;> simp [residentIn, bucketTasks, List.filter_append, hk]

theorem middle_of_singleton {α : Type} {p r s : List α} {x : α} (h : p ++ (r ++ s) = [x])
    (hr : r ≠ []) : p = [] ∧ s = [] := by
  have hlen := congrArg List.length h
  simp only [List.length_append, List.length_singleton] at hlen
  have hr1 : 0 < r.length := List.length_pos.mpr hr
  exact ⟨List.length_eq_zero.mp (by omega), List.length_eq_zero.mp (by omega)⟩

/-! ### Registry and ring under each handler taken alone -/

theorem Sync_fresh {interval : Int} {slotNum : Nat} {tw0 : TimeWheel}
    (h : fresh interval slotNum = some tw0) : Sync tw0 := by
  intro key
  rw [(fresh_some h).2]
  exact Or.inl ⟨rfl, residentFrom_replicate_empty _ _ _⟩

theorem Sync_addTask {tw tw1 : TimeWheel} {task : Task} (hs : Sync tw)
    (hl : Load tw.taskRecords task.key = none) (h : addTask tw task = some tw1) :
    Sync tw1 := by
  obtain ⟨l, hb, h1⟩ := addTask_some h
  intro key
  have hold := residentFrom_split hb 0 key
  have hnew := residentFrom_set hb
    (some (l ++ [{ task with slot := 5, circle := 0 }])) 0 key
  rw [residentIn_push] at hnew
  rw [h1]
  simp only [resident]
  by_cases hk : task.key = key
  · right
    refine ⟨5, { task with slot := 5, circle := 0 }, ?_, ?_⟩
    · rw [← hk]; exact Load_Store_same _ _ _
    · have hnil : resident tw key = [] := by
        rcases hs key with ⟨_, hr⟩ | ⟨i, t, ht, _⟩
        · exact hr
        · rw [← hk, hl] at ht; cases ht
      simp only [resident] at hnil
      rw [hnil] at hold
      have h2 := List.append_eq_nil.mp hold.symm
      have h3 := List.append_eq_nil.mp h2.2
      rw [hnew, h2.1, h3.1, h3.2]
      simp [hk]
  · have hsame : residentFrom 0 (tw.slots.set 5
        (some (l ++ [{ task with slot := 5, circle := 0 }]))) key
        = residentFrom 0 tw.slots key := by
      rw [hnew, hold]; simp [hk]
    rw [hsame, Load_Store_ne _ _ hk]
    exact hs key

theorem Sync_executeTask {tw tw1 : TimeWheel} {log : List Dispatch} (hs : Sync tw)
    (h : executeTask tw = some (tw1, log)) : Sync tw1 := by
  obtain ⟨b, hb, _, h1, _⟩ := executeTask_some h
  intro key
  rw [h1]
  cases b with
  | none => exact hs key
  | some l =>
    have hold := residentFrom_split hb 0 key
    have hnew := residentFrom_set hb (some []) 0 key
    simp only [resident, bucketTasks]
    by_cases hk : ∃ t ∈ l, t.key = key
    · left
      refine ⟨Load_drain_mem _ _ _ hk, ?_⟩
      rcases hs key with ⟨_, hr⟩ | ⟨i, t, _, hr⟩
      · simp only [resident] at hr
        rw [hr] at hold
        have h2 := List.append_eq_nil.mp hold.symm
        have h3 := List.append_eq_nil.mp h2.2
        exact absurd h3.1 (residentIn_ne_nil hk)
      · simp only [resident] at hr
        rw [hr] at hold
        have h2 := middle_of_singleton hold.symm (residentIn_ne_nil hk)
        rw [hnew, h2.1, h2.2]
        simp [residentIn, bucketTasks]
    · have hk1 : ∀ t ∈ l, t.key ≠ key := fun t ht e => hk ⟨t, ht, e⟩
      have hsame : residentFrom 0 (tw.slots.set tw.currentSlot (some [])) key
          = residentFrom 0 tw.slots key := by
        rw [hnew, hold, residentIn_eq_nil hk1]
        simp [residentIn, bucketTasks]
      rw [hsame, Load_drain_not_mem _ _ _ hk1]
      exact hs key

/-! ### The ring and the current slot -/

theorem getElem?_set_other {α : Type} (l : List α) {i j : Nat} (x : α) (h : i ≠ j) :
    (l.set j x)[i]? = l[i]? := by
  rw [List.getElem?_set]
  simp [Ne.symm h]

theorem executeTask_total {tw : TimeWheel} (h : Ring tw) :
    ∃ tw1 log, executeTask tw = some (tw1, log) := by
  have hlt : tw.currentSlot < tw.slots.length := by rw [h.1]; exact h.2
  have hz : tw.slotNum ≠ 0 := by have := h.2; omega
  simp only [executeTask, List.getElem?_eq_getElem hlt, hz, if_false]
  exact ⟨_, _, rfl⟩

theorem Ring_step {tw tw1 : TimeWheel} {op : Op} {log : List Dispatch} (h : Ring tw)
    (hs : step tw op = some (tw1, log)) : Ring tw1 ∧ tw1.slotNum = tw.slotNum := by
  rcases step_cases hs with ⟨h1, _⟩ | ⟨_, _, _, _, _, _, _, _, _, h1⟩ | ⟨_, _, _, _, h1⟩ |
    ⟨_, _, _, _, _, ha⟩ | ⟨_, _, _, _, h1⟩ | ⟨_, he⟩
  · rw [h1]; exact ⟨h, rfl⟩
  · rw [h1]; exact ⟨h, rfl⟩
  · rw [h1]; exact ⟨h, rfl⟩
  · obtain ⟨l, _, h1⟩ := addTask_some ha
    rw [h1]
    exact ⟨⟨by simpa using h.1, h.2⟩, rfl⟩
  · rw [h1]; exact ⟨h, rfl⟩
  · obtain ⟨b, _, hz, h1, _⟩ := executeTask_some he
    rw [h1]
    refine ⟨⟨?_, Nat.mod_lt _ (Nat.pos_of_ne_zero hz)⟩, rfl⟩
    cases b with
    | none => exact h.1
    | some l => simpa using h.1

theorem Ring_exec {ops : List Op} {tw tw1 : TimeWheel} {log : List Dispatch} (h : Ring tw)
    (he : exec tw ops = some (tw1, log)) : Ring tw1 ∧ tw1.slotNum = tw.slotNum := by
  induction ops generalizing tw log with
  | nil =>
    simp only [exec, Option.some.injEq, Prod.mk.injEq] at he
    rw [← he.1]; exact ⟨h, rfl⟩
  | cons op ops ih =>
    obtain ⟨tw2, log1, log2, hst, he2, _⟩ := exec_cons_some he
    have h2 := Ring_step h hst
    have h3 := ih h2.1 he2
    exact ⟨h3.1, by rw [h3.2, h2.2]⟩

theorem Ring_fresh {interval : Int} {slotNum : Nat} {tw0 : TimeWheel}
    (h : fresh interval slotNum = some tw0) (hpos : 0 < slotNum) :
    Ring tw0 ∧ tw0.slotNum = slotNum := by
  rw [(fresh_some h).2]
  exact ⟨⟨by simp, hpos⟩, rfl⟩

theorem executeTask_currentSlot {tw tw1 : TimeWheel} {log : List Dispatch} (h : Ring tw)
    (hu : tw.slotNum < 2 ^ 32) (he : executeTask tw = some (tw1, log)) :
    tw1.currentSlot = (tw.currentSlot + 1) % tw.slotNum := by
  obtain ⟨b, _, _, h1, _⟩ := executeTask_some he
  rw [h1]
  have h2 := h.2
  have h3 : (tw.currentSlot + 1) % 2 ^ 32 = tw.currentSlot + 1 :=
    Nat.mod_eq_of_lt (by omega)
  show (tw.currentSlot + 1) % 2 ^ 32 % tw.slotNum = (tw.currentSlot + 1) % tw.slotNum
  rw [h3]

theorem ticks_currentSlot (n : Nat) {tw : TimeWheel} (h : Ring tw) (hu : tw.slotNum < 2 ^ 32) :
    ∃ tw1 log, exec tw (List.replicate n Op.tick) = some (tw1, log) ∧
      tw1.currentSlot = (tw.currentSlot + n) % tw.slotNum := by
  induction n generalizing tw with
  | zero => exact ⟨tw, [], rfl, by simp [Nat.mod_eq_of_lt h.2]⟩
  | succ n ih =>
    obtain ⟨tw1, log1, he⟩ := executeTask_total h
    have hst : step tw Op.tick = some (tw1, log1) := he
    have hr := Ring_step h hst
    obtain ⟨tw2, log2, he2, hc⟩ := ih hr.1 (by rw [hr.2]; exact hu)
    refine ⟨tw2, log1 ++ log2, ?_, ?_⟩
    · simp only [List.replicate_succ, exec, hst, he2]
    · rw [hc, hr.2, executeTask_currentSlot h hu he, Nat.mod_add_mod]
      congr 1
      omega

/-! ### Tasks in reachable wheels are due -/

theorem AllDue_fresh {interval : Int} {slotNum : Nat} {tw0 : TimeWheel}
    (h : fresh interval slotNum = some tw0) : AllDue tw0 := by
  rw [(fresh_some h).2]
  intro b hb
  have hb1 : b = some [] := (List.mem_replicate.mp hb).2
  exact ⟨[], hb1, by simp⟩

theorem AllDue_step {tw tw1 : TimeWheel} {op : Op} {log : List Dispatch} (h : AllDue tw)
    (hs : step tw op = some (tw1, log)) : AllDue tw1 := by
  rcases step_cases hs with ⟨h1, _⟩ | ⟨_, _, _, _, _, _, _, _, _, h1⟩ | ⟨_, _, _, _, h1⟩ |
    ⟨_, _, _, _, _, ha⟩ | ⟨_, _, _, _, h1⟩ | ⟨_, he⟩
  · rw [h1]; exact h
  · rw [h1]; exact h
  · rw [h1]; exact h
  · obtain ⟨l, hl, h1⟩ := addTask_some ha
    rw [h1]
    intro b hb
    rcases List.mem_or_eq_of_mem_set hb with hb | hb
    · exact h b hb
    · refine ⟨_, hb, ?_⟩
      obtain ⟨l0, hl0, hd⟩ := h (some l) (List.getElem?_mem hl)
      cases hl0
      intro t ht
      rcases List.mem_append.mp ht with ht | ht
      · exact hd t ht
      · rw [List.mem_singleton.mp ht]
  · rw [h1]; exact h
  · obtain ⟨b, _, _, h1, _⟩ := executeTask_some he
    rw [h1]
    intro c hc
    cases b with
    | none => exact h c hc
    | some l =>
      rcases List.mem_or_eq_of_mem_set hc with hc | hc
      · exact h c hc
      · exact ⟨[], hc, by simp⟩

theorem AllDue_exec {ops : List Op} {tw tw1 : TimeWheel} {log : List Dispatch}
    (h : AllDue tw) (he : exec tw ops = some (tw1, log)) : AllDue tw1 := by
  induction ops generalizing tw log with
  | nil => simp only [exec, Option.some.injEq, Prod.mk.injEq] at he; rw [← he.1]; exact h
  | cons op ops ih =>
    obtain ⟨tw2, log1, log2, hst, he2, _⟩ := exec_cons_some he
    exact ih (AllDue_step h hst) he2

/-! ### The bucket a tick meets in a reached state -/

theorem reached_bucket_due {interval : Int} {slotNum : Nat} {tw0 tw : TimeWheel}
    {ops : List Op} {log : List Dispatch} (hpos : 0 < slotNum)
    (h0 : fresh interval slotNum = some tw0) (hrun : exec tw0 ops = some (tw, log)) :
    tw.slotNum ≠ 0 ∧
      ∃ l, tw.slots[tw.currentSlot]? = some (some l) ∧ ∀ t ∈ l, t.circle = 0 := by
  have hring : Ring tw := (Ring_exec (Ring_fresh h0 hpos).1 hrun).1
  have hdue : AllDue tw := AllDue_exec (AllDue_fresh h0) hrun
  have hlt : tw.currentSlot < tw.slots.length := by rw [hring.1]; exact hring.2
  have hget : tw.slots[tw.currentSlot]? = some tw.slots[tw.currentSlot] :=
    List.getElem?_eq_getElem hlt
  obtain ⟨l, hl, hc⟩ := hdue _ (List.getElem?_mem hget)
  refine ⟨?_, l, by rw [hget, hl], hc⟩
  have := hring.2
  omega

end timewheel

namespace golang

theorem mapGet_mapSet_same {α : Type} (m : List (String × α)) (key : String) (v : α) :
    mapGet (mapSet m key v) key = some v := by
  induction m with
  | nil => simp [mapSet, mapGet]
  | cons e rest ih =>
    obtain ⟨k, w⟩ := e
    by_cases hk : k = key
    · simp [mapSet, mapGet, hk]
    · simp [mapSet, mapGet, hk, ih]

theorem mapGet_mapSet_ne {α : Type} (m : List (String × α)) {key other : String} (v : α)
    (h : other ≠ key) : mapGet (mapSet m other v) key = mapGet m key := by
  induction m with
  | nil => simp [mapSet, mapGet, h]
  | cons e rest ih =>
    obtain ⟨k, w⟩ := e
    by_cases hk : k = other
    · have hk2 : k ≠ key := by rw [hk]; exact h
      simp [mapSet, mapGet, hk, hk2, h]
    · by_cases hk2 : k = key
      · subst hk2
        simp [mapSet, mapGet, hk]
      · simp [mapSet, mapGet, hk, hk2, ih]

end golang

namespace fsm

open golang

/-! ### The table of the map-based machine -/

theorem lookup_AddTransition (f : FSM) (src : State) (event : Event) (dst : State)
    (action : Option Action) (s : State) (e : Event) :
    lookup (AddTransition f src event dst action) s e
      = if src = s ∧ event = e then
          some { From := src, Event := event, To := dst, Action := action }
        else lookup f s e := by
  by_cases hs : src = s
  · subst hs
    by_cases he : event = e
    · subst he
      simp [lookup, AddTransition, mapGet_mapSet_same]
    · simp only [lookup, AddTransition, mapGet_mapSet_same, he, and_false, if_false]
      rw [mapGet_mapSet_ne _ _ he]
      cases mapGet f.transitions src <;> rfl
  · simp only [lookup, AddTransition, hs, false_and, if_false]
    rw [mapGet_mapSet_ne _ _ hs]

theorem lookup_foldl_register (regs : List Registration) (f : FSM) (s : State) (e : Event) :
    lookup (regs.foldl register f) s e
      = match registered regs s e with
        | some t => some t
        | none => lookup f s e := by
  induction regs generalizing f with
  | nil => rfl
  | cons r rest ih =>
    simp only [List.foldl_cons, registered]
    rw [ih (register f r)]
    cases registered rest s e with
    | some t => rfl
    | none =>
      simp only [register, lookup_AddTransition]
      split <;> rfl

theorem lookup_built (initial : State) (regs : List Registration) (f : FSM)
    (htab : f.transitions = (regs.foldl register (NewFSM initial)).transitions)
    (s : State) (e : Event) : lookup f s e = registered regs s e := by
  have h1 : lookup f s e = lookup (regs.foldl register (NewFSM initial)) s e := by
    simp only [lookup, htab]
  rw [h1, lookup_foldl_register]
  cases registered regs s e <;> rfl

theorem registered_none {later : List Registration} {s : State} {e : Event}
    (h : ∀ r ∈ later, ¬ (r.1 = s ∧ r.2.1 = e)) : registered later s e = none := by
  induction later with
  | nil => rfl
  | cons r rest ih =>
    simp only [registered]
    rw [ih fun x hx => h x (List.mem_cons_of_mem _ hx)]
    simp only [h r (List.mem_cons_self _ _), if_false]

theorem Trigger_eq_lookup (f : FSM) (event : Event) (data : Data) :
    Trigger f event data
      = match lookup f f.current event with
        | none => (f, some (TriggerError.invalidTransition f.current event))
        | some transition =>
          match transition.Action with
          | some action =>
            match action f.current transition.To data with
            | some err => (f, some (TriggerError.actionFailed err))
            | none => ({ f with current := transition.To }, none)
          | none => ({ f with current := transition.To }, none) := by
  simp only [Trigger, lookup]
  cases mapGet f.transitions f.current with
  | none => rfl
  | some m =>
    dsimp only
    cases mapGet m event <;> rfl

end fsm

namespace table_base_fsm

open golang

/-! ### Table lookups -/

theorem index_eq_some {α : Type} {l : List α} {i : Int} {a : α} (h : index l i = some a) :
    0 ≤ i ∧ l[i.toNat]? = some a ∧ i.toNat < l.length ∧ a ∈ l := by
  unfold index at h
  split at h
  · cases h
  · refine ⟨by omega, h, ?_, List.getElem?_mem h⟩
    exact (List.getElem?_eq_some.mp h).1

theorem index_natCast {α : Type} (l : List α) (n : Nat) : index l (n : Int) = l[n]? := by
  simp [index]

theorem index_of_range {α : Type} (l : List α) (i : Int) (h0 : 0 ≤ i)
    (h1 : i < (l.length : Int)) : ∃ a, index l i = some a := by
  have h2 : i.toNat < l.length := by omega
  refine ⟨l[i.toNat], ?_⟩
  simp only [index, not_lt.mpr h0, if_false]
  exact List.getElem?_eq_getElem h2

theorem isValidTransition_eq_false {cell : Transition} :
    isValidTransition cell = false ↔ cell = emptyCell := by
  obtain ⟨a, b, c, d⟩ := cell
  simp [isValidTransition, emptyCell]
  tauto

/-! ### `Trigger` once the cell is known -/

theorem Trigger_invalid_cell {fsm : TableBasedFSM} {event : Int} (data : Data)
    {row0 row : List Transition} {cell : Transition}
    (hrow0 : fsm.transitionTable[0]? = some row0) (he0 : 0 ≤ event)
    (he1 : event < (row0.length : Int))
    (hrow : index fsm.transitionTable fsm.currentState = some row)
    (hcell : index row event = some cell) (hv : isValidTransition cell = false) :
    Trigger fsm event data
      = some (fsm, some (TriggerError.invalidTransition fsm.currentState event)) := by
  have hr : ¬ (event < 0 ∨ (row0.length : Int) ≤ event) := by omega
  simp [Trigger, hrow0, hr, hrow, hcell, hv]

theorem Trigger_valid_cell {fsm : TableBasedFSM} {event : Int} (data : Data)
    {row0 row : List Transition} {cell : Transition}
    (hrow0 : fsm.transitionTable[0]? = some row0) (he0 : 0 ≤ event)
    (he1 : event < (row0.length : Int))
    (hrow : index fsm.transitionTable fsm.currentState = some row)
    (hcell : index row event = some cell) (hv : isValidTransition cell = true) :
    ∃ r, Trigger fsm event data = some r ∧ rejectedAsInvalid r.2 = false ∧
      ((cell.ActionIndex = INVALID_ACTION ∨
          ∃ action, index fsm.actionTable cell.ActionIndex = some action ∧
            action cell.From cell.To data = none) →
        r = ({ fsm with currentState := cell.To }, none)) := by
  have hr : ¬ (event < 0 ∨ (row0.length : Int) ≤ event) := by omega
  by_cases hi : cell.ActionIndex = INVALID_ACTION
  · refine ⟨({ fsm with currentState := cell.To }, none), ?_, rfl, fun _ => rfl⟩
    simp [Trigger, hrow0, hr, hrow, hcell, hv, hi]
  · by_cases hb : cell.ActionIndex < 0 ∨ (fsm.actionTable.length : Int) ≤ cell.ActionIndex
    · refine ⟨(fsm, some (TriggerError.actionIndex cell.ActionIndex fsm.actionTable.length)),
        ?_, rfl, ?_⟩
      · simp [Trigger, hrow0, hr, hrow, hcell, hv, hi, hb]
      · rintro (h | ⟨action, ha, _⟩)
        · exact absurd h hi
        · have := index_eq_some ha
          omega
    · obtain ⟨action, ha⟩ := index_of_range fsm.actionTable cell.ActionIndex
        (by omega) (by omega)
      cases hres : action cell.From cell.To data with
      | some err =>
        refine ⟨(fsm, some (TriggerError.actionFailed err)), ?_, rfl, ?_⟩
        · simp [Trigger, hrow0, hr, hrow, hcell, hv, hi, hb, ha, hres]
        · rintro (h | ⟨action1, ha1, hn⟩)
          · exact absurd h hi
          · rw [ha] at ha1
            cases ha1
            rw [hres] at hn
            cases hn
      | none =>
        refine ⟨({ fsm with currentState := cell.To }, none), ?_, rfl, fun _ => rfl⟩
        simp [Trigger, hrow0, hr, hrow, hcell, hv, hi, hb, ha, hres]

/-- In a rectangular table a cell found in the row of the current state lies in
the range of the event columns. -/
theorem cell_in_range {fsm : TableBasedFSM} {event : Int} {row : List Transition}
    {cell : Transition} (hrect : Rectangular fsm.transitionTable)
    (hrow : index fsm.transitionTable fsm.currentState = some row)
    (hcell : index row event = some cell) :
    ∃ row0, fsm.transitionTable[0]? = some row0 ∧ row.length = row0.length ∧ 0 ≤ event ∧
      event < (row0.length : Int) := by
  have h1 := index_eq_some hrow
  have h2 := index_eq_some hcell
  have hpos : 0 < fsm.transitionTable.length := by omega
  refine ⟨fsm.transitionTable[0], List.getElem?_eq_getElem hpos, ?_, h2.1, ?_⟩
  · exact hrect _ (List.getElem?_eq_getElem hpos) row h1.2.2.2
  · have h3 := hrect _ (List.getElem?_eq_getElem hpos) row h1.2.2.2
    have h4 := h2.2.2.1
    have h5 := h2.1
    omega

/-! ### The loop of `GetAvailableEvents` -/

theorem availableLoop_eq {fsm : TableBasedFSM} {row : List Transition}
    (hrow : index fsm.transitionTable fsm.currentState = some row) (l : List Nat)
    (events : List Event) (hl : ∀ n ∈ l, n < row.length) :
    availableLoop fsm l events
      = some (events ++ (l.filter fun n => validAt row n).map Int.ofNat) := by
  induction l generalizing events with
  | nil => simp [availableLoop]
  | cons n rest ih =>
    have hn : n < row.length := hl n (List.mem_cons_self _ _)
    have hget : row[n]? = some row[n] := List.getElem?_eq_getElem hn
    simp only [availableLoop, hrow, hget]
    rw [ih _ fun m hm => hl m (List.mem_cons_of_mem _ hm)]
    by_cases hv : isValidTransition row[n] = true
    · simp [List.filter_cons, validAt, hget, hv]
    · simp [List.filter_cons, validAt, hget, hv]

end table_base_fsm

namespace vending

open golang

/-! ### The coin check of the two machines -/

theorem verifyCoinCount_eq (s t : fsm.State) (data : Data) :
    (fsm.verifyCoinCount s t data).isSome = !coinAccepted data := by
  cases data with
  | nil => rfl
  | other shown => rfl
  | float64 x =>
    cases h : Float64.lt x (Float64.finite 3) <;>
      simp [fsm.verifyCoinCount, fsm.itemPrice, coinAccepted, h]

theorem coinAction_eq (s t : table_base_fsm.State) (data : Data) :
    (table_base_fsm.coinAction s t data).isSome = !coinAccepted data := by
  cases data with
  | nil => rfl
  | other shown => rfl
  | float64 x =>
    cases h : Float64.lt x (Float64.finite 3) <;>
      simp [table_base_fsm.coinAction, coinAccepted, h]

theorem map_insert_coin (data : Data) :
    fsm.Trigger (mapAt VState.itemSelected) fsm.INSERT_COIN data
      = match fsm.verifyCoinCount fsm.ITEM_SELECTED fsm.COIN_INSERTED data with
        | some err => (mapAt VState.itemSelected, some (fsm.TriggerError.actionFailed err))
        | none => (mapAt VState.coinInserted, none) := by
  rfl

theorem table_insert_coin (data : Data) :
    table_base_fsm.Trigger (tableAt VState.itemSelected)
        table_base_fsm.VENDING_INSERT_COIN data
      = match table_base_fsm.coinAction table_base_fsm.VENDING_ITEM_SELECTED
          table_base_fsm.VENDING_COIN_INSERTED data with
        | some err =>
          some (tableAt VState.itemSelected,
            some (table_base_fsm.TriggerError.actionFailed err))
        | none => some (tableAt VState.coinInserted, none) := by
  rfl

/-! ### Both machines follow `next` -/

theorem map_step (s : VState) (e : VEvent) (data : Data) :
    (fsm.Trigger (mapAt s) (eventName e) data).1 = mapAt (next s e data).1 ∧
      (fsm.Trigger (mapAt s) (eventName e) data).2.isSome = (next s e data).2 := by
  cases s <;> cases e <;> first
    | exact ⟨rfl, rfl⟩
    | (show (fsm.Trigger (mapAt VState.itemSelected) fsm.INSERT_COIN data).1 = _ ∧
          (fsm.Trigger (mapAt VState.itemSelected) fsm.INSERT_COIN data).2.isSome = _
       rw [map_insert_coin]
       have h := verifyCoinCount_eq fsm.ITEM_SELECTED fsm.COIN_INSERTED data
       cases hv : fsm.verifyCoinCount fsm.ITEM_SELECTED fsm.COIN_INSERTED data with
       | none =>
         rw [hv] at h
         have hc : coinAccepted data = true := by simpa using h
         simp [next, hc]
       | some err =>
         rw [hv] at h
         have hc : coinAccepted data = false := by simpa using h
         simp [next, hc])

theorem table_step (s : VState) (e : VEvent) (data : Data) :
    ∃ err, table_base_fsm.Trigger (tableAt s) (eventIndex e) data
        = some (tableAt (next s e data).1, err) ∧ err.isSome = (next s e data).2 := by
  cases s <;> cases e <;> first
    | exact ⟨_, rfl, rfl⟩
    | (show ∃ err, table_base_fsm.Trigger (tableAt VState.itemSelected)
          table_base_fsm.VENDING_INSERT_COIN data = _ ∧ _
       rw [table_insert_coin]
       have h := coinAction_eq table_base_fsm.VENDING_ITEM_SELECTED
         table_base_fsm.VENDING_COIN_INSERTED data
       cases hv : table_base_fsm.coinAction table_base_fsm.VENDING_ITEM_SELECTED
           table_base_fsm.VENDING_COIN_INSERTED data with
       | none =>
         rw [hv] at h
         have hc : coinAccepted data = true := by simpa using h
         exact ⟨none, by simp [next, hc], by simp [next, hc]⟩
       | some msg =>
         rw [hv] at h
         have hc : coinAccepted data = false := by simpa using h
         exact ⟨some (table_base_fsm.TriggerError.actionFailed msg), by simp [next, hc],
           by simp [next, hc]⟩)

theorem traces_agree (s : VState) (inputs : List (VEvent × Data)) :
    ∃ trace, tableTrace (tableAt s) (inputs.map fun p => (eventIndex p.1, p.2)) = some trace ∧
      List.Forall₂
        (fun m t => m.1 = t.1 ∧ ∃ s1, m.2 = stateName s1 ∧ t.2 = stateIndex s1)
        (mapTrace (mapAt s) (inputs.map fun p => (eventName p.1, p.2))) trace := by
  induction inputs generalizing s with
  | nil => exact ⟨[], rfl, List.Forall₂.nil⟩
  | cons p rest ih =>
    obtain ⟨e, data⟩ := p
    obtain ⟨err, ht, herr⟩ := table_step s e data
    obtain ⟨hm1, hm2⟩ := map_step s e data
    obtain ⟨trace, htr, hall⟩ := ih (next s e data).1
    refine ⟨(err.isSome, stateIndex (next s e data).1) :: trace, ?_, ?_⟩
    · simp only [List.map_cons, tableTrace, ht, htr]
      rfl
    · simp only [List.map_cons, mapTrace, hm1]
      refine List.Forall₂.cons ⟨?_, (next s e data).1, rfl, rfl⟩ hall
      rw [hm2, herr]

end vending

namespace timewheel

/-! ## The claims -/

/-- C1: on a started wheel with interval 1, 10 slots and currentSlot 0, a task
accepted with delay 23 is placed by `addTask` in slot 5 with circle 0, not in
slot (0 + 23) mod 10 = 3 with circle 23 / 10 = 2. -/
theorem addTask_ignores_delay :
    ∃ tw0 tw1 t, fresh 1 10 = some tw0 ∧ tw0.currentSlot = 0 ∧
      exec tw0 [Op.add "a" 7 23, Op.recvAdd] = some (tw1, []) ∧
      Load tw1.taskRecords "a" = some t ∧ resident tw1 "a" = [(5, t)] ∧
      t.slot = 5 ∧ t.circle = 0 ∧
      t.slot ≠ (tw0.currentSlot + 23) % tw0.slotNum ∧ t.circle ≠ 23 / tw0.slotNum := by
  refine ⟨_, _, _, rfl, rfl, rfl, rfl, rfl, rfl, rfl, ?_, ?_⟩ <;> decide


/-- C3: on a started wheel with interval 1, 10 slots and currentSlot 0, a task
accepted with a delay of one interval has not been dispatched after one tick,
nor after two, nor after five; it is dispatched by the sixth tick, and twenty
further ticks do not dispatch it again. -/
theorem dispatch_not_after_delay :
    ∃ tw0 tw1 tw2 tw5 tw6 tw26, fresh 1 10 = some tw0 ∧
      exec tw0 [Op.add "a" 7 1, Op.recvAdd, Op.tick] = some (tw1, []) ∧
      exec tw0 [Op.add "a" 7 1, Op.recvAdd, Op.tick, Op.tick] = some (tw2, []) ∧
      exec tw0 (Op.add "a" 7 1 :: Op.recvAdd :: List.replicate 5 Op.tick)
        = some (tw5, []) ∧
      exec tw0 (Op.add "a" 7 1 :: Op.recvAdd :: List.replicate 6 Op.tick)
        = some (tw6, [(7, "a")]) ∧
      exec tw0 (Op.add "a" 7 1 :: Op.recvAdd :: List.replicate 26 Op.tick)
        = some (tw26, [(7, "a")]) := by
  exact ⟨_, _, _, _, _, _, rfl, rfl, rfl, rfl, rfl, rfl⟩

/-- C4: `AddTask` returns an error exactly when the key is empty or already in
the registry; the empty-key error and the duplicate-key error are different
errors; and whenever `AddTask` returns an error the wheel is left exactly as it
was (buckets, registry and every scheduled task) and nothing is dispatched. -/
theorem AddTask_error_iff (tw : TimeWheel) (key : String) (job : Job) (executeAt : Int) :
    ((∃ msg, AddTask tw key job executeAt = Call.err msg)
        ↔ (key = "" ∨ ∃ t, Load tw.taskRecords key = some t)) ∧
      (key = "" → AddTask tw key job executeAt = Call.err "key is empty") ∧
      (key ≠ "" → (∃ t, Load tw.taskRecords key = some t) →
        AddTask tw key job executeAt = Call.err "key of job already exists") ∧
      Call.err "key is empty" ≠ Call.err "key of job already exists" ∧
      (∀ msg, AddTask tw key job executeAt = Call.err msg →
        step tw (Op.add key job executeAt) = some (tw, [])) := by
  refine ⟨?_, ?_, ?_, by decide, ?_⟩
  · unfold AddTask
    by_cases hk : key = ""
    · simp [hk]
    · cases hl : Load tw.taskRecords key with
      | none =>
        simp only [hk, if_false, false_or]
        split <;> simp
      | some t => simp [hk]
  · intro hk
    simp [AddTask, hk]
  · rintro hk ⟨t, ht⟩
    simp [AddTask, hk, ht]
  · intro msg h
    simp only [step, h]

/-- C5: on a started wheel, after `AddTask` of key b the call `RemoveTask` of b
never hands the task to the driver (the removal channel is nil), the driver's
`removeTask` changes nothing, the key stays in the registry and the task in its
bucket, a second `RemoveTask` does not return the unknown-key error, and the
job is dispatched by the sixth tick. -/
theorem RemoveTask_does_not_cancel :
    ∃ tw0 tw1 tw7 t, fresh 1 10 = some tw0 ∧
      exec tw0 [Op.add "b" 7 5, Op.recvAdd] = some (tw1, []) ∧
      Load tw1.taskRecords "b" = some t ∧
      RemoveTask tw1 "b" = Call.blocked ∧ removeTask tw1 t = tw1 ∧
      step tw1 (Op.remove "b") = some (tw1, []) ∧
      step tw1 Op.recvRemove = some (tw1, []) ∧ resident tw1 "b" = [(5, t)] ∧
      RemoveTask tw1 "b" ≠ Call.err "key of job not exists" ∧
      exec tw1 (Op.remove "b" :: Op.recvRemove :: List.replicate 6 Op.tick)
        = some (tw7, [(7, "b")]) := by
  refine ⟨_, _, _, _, rfl, rfl, rfl, rfl, rfl, rfl, rfl, rfl, ?_, rfl⟩
  decide

/-- C6: in every state reached without a further `AddTask` of the key, starting
either from a freshly started wheel (the key was never added) or from the state
right after a tick that dispatched the key's job, with no `AddTask` of that key
still waiting at the channel (the key has fired), `RemoveTask` of that key
returns the unknown-key error and the wheel is left exactly as it was. -/
theorem RemoveTask_unknown_key (tw0 tw : TimeWheel) (key : String) (ops : List Op)
    (log : List Dispatch)
    (h0 : (∃ interval slotNum, fresh interval slotNum = some tw0) ∨
      (∃ twp log0 job, executeTask twp = some (tw0, log0) ∧ (job, key) ∈ log0 ∧
        ∀ waiting, tw0.addTaskCh = some waiting → ∀ t ∈ waiting, t.key ≠ key))
    (hops : ∀ job executeAt, Op.add key job executeAt ∉ ops)
    (hrun : exec tw0 ops = some (tw, log)) :
    RemoveTask tw key = Call.err "key of job not exists" ∧
      step tw (Op.remove key) = some (tw, []) := by
  have ha0 : Absent tw0 key := by
    rcases h0 with ⟨interval, slotNum, hf⟩ | ⟨twp, log0, job, he, hm, hq⟩
    · rw [(fresh_some hf).2]
      refine ⟨rfl, ?_⟩
      intro waiting hw t ht
      simp only [Option.some.injEq] at hw
      rw [← hw] at ht
      cases ht
    · exact ⟨executeTask_fired_gone he hm, hq⟩
  have hl : Load tw.taskRecords key = none := (exec_Absent hrun hops ha0).1
  have hr : RemoveTask tw key = Call.err "key of job not exists" := by
    simp [RemoveTask, hl]
  exact ⟨hr, by simp only [step, hr]⟩

/-- C6 witness: on a started wheel with 10 slots, key z is never added and key
a is added and fired by the sixth tick; `RemoveTask` of z before that tick, and
`RemoveTask` of a after it and after a further tick and a further add, both
return the unknown-key error and change nothing. -/
theorem RemoveTask_unknown_key_witness :
    fresh 1 10 = some readyWheel ∧
      exec readyWheel (Op.add "a" 7 1 :: Op.recvAdd :: List.replicate 5 Op.tick)
        = some (dueWheel, []) ∧
      executeTask dueWheel = some ({ readyWheel with currentSlot := 6 }, [(7, "a")]) ∧
      (RemoveTask dueWheel "z" = Call.err "key of job not exists" ∧
        step dueWheel (Op.remove "z") = some (dueWheel, [])) ∧
      ∃ tw3, exec { readyWheel with currentSlot := 6 } [Op.tick, Op.add "c" 9 1, Op.recvAdd]
          = some (tw3, []) ∧
        RemoveTask tw3 "a" = Call.err "key of job not exists" ∧
        step tw3 (Op.remove "a") = some (tw3, []) :=
  ⟨rfl, rfl, rfl,
    RemoveTask_unknown_key readyWheel dueWheel "z"
      (Op.add "a" 7 1 :: Op.recvAdd :: List.replicate 5 Op.tick) []
      (Or.inl ⟨1, 10, rfl⟩) (by simp) rfl,
    _, rfl,
    RemoveTask_unknown_key { readyWheel with currentSlot := 6 } _ "a"
      [Op.tick, Op.add "c" 9 1, Op.recvAdd] []
      (Or.inr ⟨dueWheel, [(7, "a")], 7, rfl, by simp,
        by intro waiting hw t ht; cases hw; cases ht⟩) (by simp) rfl⟩

/-- C7, as stated, fails: `NewTimeWheel 0 0` returns a nil error although the
interval is not positive and the slot count is zero. -/
theorem NewTimeWheel_accepts_zero :
    ¬ ((NewTimeWheel 0 0).2 ≠ none ↔ ((0 : Int) ≤ 0 ∨ (0 : Nat) = 0)) := by
  decide

/-- C7, amended: `NewTimeWheel` never returns an error; for every interval and
slot count it returns a wheel with currentSlot 0, the given interval and slot
count, a ring of that many cells, an empty registry and isRun false. -/
theorem NewTimeWheel_total (interval : Int) (slotNum : Nat) :
    (NewTimeWheel interval slotNum).2 = none ∧
      (NewTimeWheel interval slotNum).1.currentSlot = 0 ∧
      (NewTimeWheel interval slotNum).1.interval = interval ∧
      (NewTimeWheel interval slotNum).1.slotNum = slotNum ∧
      (NewTimeWheel interval slotNum).1.slots.length = slotNum ∧
      (NewTimeWheel interval slotNum).1.taskRecords = [] ∧
      (NewTimeWheel interval slotNum).1.isRun = false := by
  simp [NewTimeWheel]

/-- C8, as stated, fails: the first `Start` of the wheel made by
`NewTimeWheel 0 10` does not succeed, it panics. -/
theorem Start_panics_on_zero_interval :
    (NewTimeWheel 0 10).2 = none ∧ (NewTimeWheel 0 10).1.isRun = false ∧
      Start (NewTimeWheel 0 10).1 = none := by
  decide

/-- C8, amended: for every wheel made with a positive interval the first
`Start` returns nil and sets the running flag; in every state the started wheel
reaches afterwards, `Start` returns the already-running error and leaves the
whole wheel (buckets, registry, currentSlot, running flag) as it was. -/
theorem Start_once (interval : Int) (slotNum : Nat) (hpos : 0 < interval) :
    ∃ tw1, Start (NewTimeWheel interval slotNum).1 = some (tw1, none) ∧ tw1.isRun = true ∧
      ∀ ops tw log, exec tw1 ops = some (tw, log) →
        tw.isRun = true ∧ Start tw = some (tw, some "timewheel is already running") := by
  refine ⟨{ (NewTimeWheel interval slotNum).1 with
              slots := List.replicate slotNum (some []) ++
                (List.replicate slotNum none).drop slotNum
              ticker := some interval
              isRun := true }, ?_, rfl, ?_⟩
  · simp [Start, NewTimeWheel, not_le.mpr hpos]
  · intro ops tw log h
    have hr1 : tw.isRun = true := by rw [exec_isRun h]
    exact ⟨hr1, by simp [Start, hr1]⟩

/-- C8 witness: interval 1 and 10 slots. -/
theorem Start_once_witness :
    (0 : Int) < 1 ∧ ∃ tw1, Start (NewTimeWheel 1 10).1 = some (tw1, none) ∧ tw1.isRun = true ∧
      ∀ ops tw log, exec tw1 ops = some (tw, log) →
        tw.isRun = true ∧ Start tw = some (tw, some "timewheel is already running") :=
  ⟨by decide, Start_once 1 10 (by decide)⟩

/-- C9: on a started wheel with 3 slots `AddTask` of a fresh key is accepted,
and the driver's `addTask` then indexes cell 5 of the ring and panics: the slot
it assigns is not below the slot count. -/
theorem addTask_outside_ring :
    ∃ tw0 tw1, fresh 1 3 = some tw0 ∧ tw0.slotNum = 3 ∧ tw0.slots.length = 3 ∧
      AddTask tw0 "a" 7 1
        = Call.sent { key := "a", job := 7, executeAt := 1, slot := 0, circle := 0 } ∧
      step tw0 (Op.add "a" 7 1) = some (tw1, []) ∧
      addTask tw0 { key := "a", job := 7, executeAt := 1, slot := 0, circle := 0 } = none ∧
      step tw1 Op.recvAdd = none ∧ exec tw0 [Op.add "a" 7 1, Op.recvAdd] = none := by
  exact ⟨_, _, rfl, rfl, rfl, rfl, rfl, rfl, rfl, rfl⟩

/-- C10: on a started wheel with 10 slots two `AddTask` calls with the same key
a, the second made before the driver has stored the task of the first, are both
accepted; once the driver has handled both, bucket 5 holds two tasks with key
a, the registry maps a to the second only, the registry and the ring are out of
step, and the sixth tick dispatches both jobs with key a. -/
theorem AddTask_accepts_key_twice :
    ∃ tw0 tw1 tw2 tw8, fresh 3600000000000 10 = some tw0 ∧
      AddTask tw0 "a" 7 18000000000000
        = Call.sent { key := "a", job := 7, executeAt := 18000000000000, slot := 0,
                      circle := 0 } ∧
      step tw0 (Op.add "a" 7 18000000000000) = some (tw1, []) ∧
      AddTask tw1 "a" 9 3600000000000
        = Call.sent { key := "a", job := 9, executeAt := 3600000000000, slot := 0,
                      circle := 0 } ∧
      exec tw0 [Op.add "a" 7 18000000000000, Op.add "a" 9 3600000000000, Op.recvAdd,
        Op.recvAdd] = some (tw2, []) ∧
      resident tw2 "a"
        = [(5, { key := "a", job := 7, executeAt := 18000000000000, slot := 5, circle := 0 }),
           (5, { key := "a", job := 9, executeAt := 3600000000000, slot := 5, circle := 0 })] ∧
      Load tw2.taskRecords "a"
        = some { key := "a", job := 9, executeAt := 3600000000000, slot := 5, circle := 0 } ∧
      ¬ Sync tw2 ∧
      exec tw2 (List.replicate 6 Op.tick) = some (tw8, [(7, "a"), (9, "a")]) := by
  refine ⟨_, _, _, _, rfl, rfl, rfl, rfl, rfl, rfl, rfl, ?_, rfl⟩
  intro hs
  rcases hs "a" with ⟨h1, _⟩ | ⟨i, t, _, h2⟩
  · have h3 : some (Task.mk "a" 9 3600000000000 5 0) = none := h1
    cases h3
  · have h3 : [((5 : Nat), Task.mk "a" 7 18000000000000 5 0),
        (5, Task.mk "a" 9 3600000000000 5 0)] = [(i, t)] := h2
    have h4 := congrArg List.length h3
    simp at h4

/-- C11: on every wheel state on which a tick does not panic and whose bucket at
currentSlot holds due tasks only, one tick dispatches the tasks of that bucket,
each once, in insertion order, each with its own key; the bucket is left empty
and the key of every dispatched task is gone from the registry; every other
bucket is as before, every registry entry under another key is as before, and
so is the registry entry of every task in another bucket that does not share
its key with a dispatched task. -/
theorem executeTask_drains_bucket (tw : TimeWheel) (l : List Task)
    (hz : tw.slotNum ≠ 0) (hb : tw.slots[tw.currentSlot]? = some (some l))
    (hdue : ∀ t ∈ l, t.circle = 0) :
    ∃ tw1,
      executeTask tw
        = some (tw1, (l.filter fun t => t.circle = 0).map fun t => (t.job, t.key)) ∧
      (l.filter fun t => t.circle = 0) = l ∧
      tw1.slots = tw.slots.set tw.currentSlot (some []) ∧
      tw1.slots[tw.currentSlot]? = some (some []) ∧
      (∀ t ∈ l, Load tw1.taskRecords t.key = none) ∧
      (∀ i, i ≠ tw.currentSlot → tw1.slots[i]? = tw.slots[i]?) ∧
      (∀ key, (∀ t ∈ l, t.key ≠ key) →
        Load tw1.taskRecords key = Load tw.taskRecords key) ∧
      (∀ i b t, i ≠ tw.currentSlot → tw.slots[i]? = some b → t ∈ bucketTasks b →
        (∀ u ∈ l, u.key ≠ t.key) →
        Load tw1.taskRecords t.key = Load tw.taskRecords t.key) := by
  have hfil : (l.filter fun t => t.circle = 0) = l :=
    List.filter_eq_self.mpr fun t ht => by simpa using hdue t ht
  have hlt : tw.currentSlot < tw.slots.length := by
    rcases List.getElem?_eq_some.mp hb with ⟨h, _⟩
    exact h
  have he : executeTask tw
      = some ({ tw with
                slots := tw.slots.set tw.currentSlot (some [])
                taskRecords := (drain l tw.taskRecords []).2.1
                currentSlot := ((tw.currentSlot + 1) % 2 ^ 32) % tw.slotNum },
              l.map fun t => (t.job, t.key)) := by
    simp only [executeTask, hb, hz, if_false, drain_fst, drain_log, List.nil_append]
  refine ⟨{ tw with
              slots := tw.slots.set tw.currentSlot (some [])
              taskRecords := (drain l tw.taskRecords []).2.1
              currentSlot := ((tw.currentSlot + 1) % 2 ^ 32) % tw.slotNum },
    ?_, hfil, rfl, ?_, ?_, ?_, ?_, ?_⟩
  · rw [he, hfil]
  · simp [List.getElem?_set, hlt]
  · intro t ht
    exact Load_drain_mem _ _ _ ⟨t, ht, rfl⟩
  · intro i hi
    exact getElem?_set_other _ _ hi
  · intro key hkey
    exact Load_drain_not_mem _ _ _ hkey
  · intro i b t _ _ _ hkey
    exact Load_drain_not_mem _ _ _ hkey

/-- C11 witness: the started wheel with 10 slots after adds of a, b and c and
five ticks holds a, b, c in bucket 5; the sixth tick dispatches job 7 with a,
job 8 with b and job 9 with c, in that order, empties the bucket and the
registry; and on the wheel that holds a in bucket 5, a tick at slot 0
dispatches nothing and leaves the registry entry of a as it is. -/
theorem executeTask_drains_bucket_witness :
    fresh 1 10 = some readyWheel ∧
      exec readyWheel ([Op.add "a" 7 1, Op.add "b" 8 2, Op.add "c" 9 3, Op.recvAdd,
        Op.recvAdd, Op.recvAdd] ++ List.replicate 5 Op.tick) = some (loadedWheel, []) ∧
      loadedWheel.slotNum ≠ 0 ∧
      loadedWheel.slots[loadedWheel.currentSlot]? = some (some loadedBucket) ∧
      (∀ t ∈ loadedBucket, t.circle = 0) ∧
      (∃ tw1, executeTask loadedWheel = some (tw1, [(7, "a"), (8, "b"), (9, "c")]) ∧
        tw1.slots = List.replicate 10 (some []) ∧ tw1.taskRecords = [] ∧
        tw1.currentSlot = 6) ∧
      (∃ tw1,
        executeTask loadedWheel
          = some (tw1,
              (loadedBucket.filter fun t => t.circle = 0).map fun t => (t.job, t.key)) ∧
        (loadedBucket.filter fun t => t.circle = 0) = loadedBucket ∧
        tw1.slots = loadedWheel.slots.set loadedWheel.currentSlot (some []) ∧
        tw1.slots[loadedWheel.currentSlot]? = some (some []) ∧
        (∀ t ∈ loadedBucket, Load tw1.taskRecords t.key = none) ∧
        (∀ i, i ≠ loadedWheel.currentSlot → tw1.slots[i]? = loadedWheel.slots[i]?) ∧
        (∀ key, (∀ t ∈ loadedBucket, t.key ≠ key) →
          Load tw1.taskRecords key = Load loadedWheel.taskRecords key) ∧
        (∀ i b t, i ≠ loadedWheel.currentSlot → loadedWheel.slots[i]? = some b →
          t ∈ bucketTasks b → (∀ u ∈ loadedBucket, u.key ≠ t.key) →
          Load tw1.taskRecords t.key = Load loadedWheel.taskRecords t.key)) ∧
      (∃ tw1, executeTask { dueWheel with currentSlot := 0 } = some (tw1, []) ∧
        Load tw1.taskRecords "a"
          = some { key := "a", job := 7, executeAt := 1, slot := 5, circle := 0 } ∧
        tw1.slots = dueWheel.slots) :=
  ⟨rfl, rfl, by decide, rfl, by decide, ⟨_, rfl, rfl, rfl, rfl⟩,
    executeTask_drains_bucket loadedWheel loadedBucket (by decide) rfl (by decide),
    ⟨_, rfl, rfl, rfl⟩⟩

/-- C12: on a wheel with slotNum cells, slotNum > 0 and currentSlot < slotNum,
one tick returns and sets currentSlot to (currentSlot + 1) mod slotNum; in every
state reached afterwards currentSlot is below slotNum; after exactly slotNum
ticks currentSlot is back at its starting value; and a step that is an
`AddTask` or a `RemoveTask` leaves currentSlot as it is. -/
theorem currentSlot_advance (tw : TimeWheel) (hlen : tw.slots.length = tw.slotNum)
    (hpos : 0 < tw.slotNum) (hcur : tw.currentSlot < tw.slotNum)
    (hu32 : tw.slotNum < 2 ^ 32) :
    (∃ tw1 log, executeTask tw = some (tw1, log) ∧
        tw1.currentSlot = (tw.currentSlot + 1) % tw.slotNum ∧
        tw1.currentSlot < tw.slotNum) ∧
      (∀ ops tw1 log, exec tw ops = some (tw1, log) →
        tw1.slotNum = tw.slotNum ∧ tw1.currentSlot < tw1.slotNum) ∧
      (∃ tw1 log, exec tw (List.replicate tw.slotNum Op.tick) = some (tw1, log) ∧
        tw1.currentSlot = tw.currentSlot) ∧
      (∀ op tw1 log, op ≠ Op.tick → step tw op = some (tw1, log) →
        tw1.currentSlot = tw.currentSlot) := by
  have hring : Ring tw := ⟨hlen, hcur⟩
  refine ⟨?_, ?_, ?_, ?_⟩
  · obtain ⟨tw1, log, he⟩ := executeTask_total hring
    have hc := executeTask_currentSlot hring hu32 he
    exact ⟨tw1, log, he, hc, by rw [hc]; exact Nat.mod_lt _ hpos⟩
  · intro ops tw1 log he
    have h := Ring_exec hring he
    exact ⟨h.2, h.1.2⟩
  · obtain ⟨tw1, log, he, hc⟩ := ticks_currentSlot tw.slotNum hring hu32
    refine ⟨tw1, log, he, ?_⟩
    rw [hc, Nat.add_mod_right, Nat.mod_eq_of_lt hcur]
  · intro op tw1 log hop hs
    rcases step_cases hs with ⟨h1, _⟩ | ⟨_, _, _, _, _, _, _, _, _, h1⟩ | ⟨_, _, _, _, h1⟩ |
      ⟨_, _, _, _, _, ha⟩ | ⟨_, _, _, _, h1⟩ | ⟨ht, _⟩
    · rw [h1]
    · rw [h1]
    · rw [h1]
    · obtain ⟨l, _, h1⟩ := addTask_some ha
      rw [h1]
    · rw [h1]
    · exact absurd ht hop

/-- C12 witness: the started wheel with 10 slots. -/
theorem currentSlot_advance_witness :
    readyWheel.slots.length = readyWheel.slotNum ∧ 0 < readyWheel.slotNum ∧
      readyWheel.currentSlot < readyWheel.slotNum ∧ readyWheel.slotNum < 2 ^ 32 ∧
      (∃ tw1 log, executeTask readyWheel = some (tw1, log) ∧
        tw1.currentSlot = (readyWheel.currentSlot + 1) % readyWheel.slotNum ∧
        tw1.currentSlot < readyWheel.slotNum) ∧
      (∀ ops tw1 log, exec readyWheel ops = some (tw1, log) →
        tw1.slotNum = readyWheel.slotNum ∧ tw1.currentSlot < tw1.slotNum) ∧
      (∃ tw1 log, exec readyWheel (List.replicate readyWheel.slotNum Op.tick)
          = some (tw1, log) ∧ tw1.currentSlot = readyWheel.currentSlot) ∧
      (∀ op tw1 log, op ≠ Op.tick → step readyWheel op = some (tw1, log) →
        tw1.currentSlot = readyWheel.currentSlot) :=
  ⟨by decide, by decide, by decide, by decide,
    currentSlot_advance readyWheel (by decide) (by decide) (by decide) (by decide)⟩

end timewheel

namespace fsm

open golang

/-- C13: on a machine whose table was built by registering src, event -> dst
with `AddTransition` (and afterwards other pairs only), in state src with an
action that is nil or returns nil on these arguments, `Trigger` of the event
returns nil and `Current` is dst afterwards. -/
theorem map_Trigger_registered (f g : FSM) (src dst : State) (event : Event)
    (action : Option Action) (later : List Registration) (data : Data)
    (htab : g.transitions
      = (later.foldl register (AddTransition f src event dst action)).transitions)
    (hlater : ∀ r ∈ later, ¬ (r.1 = src ∧ r.2.1 = event))
    (hcur : g.current = src)
    (hact : ∀ a, action = some a → a src dst data = none) :
    (Trigger g event data).2 = none ∧ Current (Trigger g event data).1 = dst ∧
      (Trigger g event data).1.transitions = g.transitions := by
  have hl : lookup g g.current event
      = some { From := src, Event := event, To := dst, Action := action } := by
    have h1 : lookup g g.current event
        = lookup (later.foldl register (AddTransition f src event dst action)) src event := by
      simp only [lookup, htab, hcur]
    rw [h1, lookup_foldl_register, registered_none hlater, lookup_AddTransition]
    simp
  rw [Trigger_eq_lookup, hl]
  cases action with
  | none => exact ⟨rfl, rfl, rfl⟩
  | some a =>
    have ha := hact a rfl
    simp only [hcur, ha]
    exact ⟨trivial, rfl, trivial⟩

/-- C13 witness: the traffic light of the test, in state RED with NEXT
registered to GREEN; repeated NEXT visits GREEN, YELLOW, RED, GREEN, YELLOW. -/
theorem map_Trigger_registered_witness :
    ((Trigger trafficLight NEXT Data.nil).2 = none ∧
        Current (Trigger trafficLight NEXT Data.nil).1 = GREEN ∧
        (Trigger trafficLight NEXT Data.nil).1.transitions = trafficLight.transitions) ∧
      Current (Trigger (Trigger trafficLight NEXT Data.nil).1 NEXT Data.nil).1 = YELLOW ∧
      Current (Trigger (Trigger (Trigger trafficLight NEXT Data.nil).1 NEXT Data.nil).1
        NEXT Data.nil).1 = RED ∧
      Current (Trigger (Trigger (Trigger (Trigger trafficLight NEXT Data.nil).1 NEXT
        Data.nil).1 NEXT Data.nil).1 NEXT Data.nil).1 = GREEN ∧
      Current (Trigger (Trigger (Trigger (Trigger (Trigger trafficLight NEXT Data.nil).1 NEXT
        Data.nil).1 NEXT Data.nil).1 NEXT Data.nil).1 NEXT Data.nil).1 = YELLOW :=
  ⟨map_Trigger_registered (NewFSM RED) trafficLight RED GREEN NEXT none
      [(GREEN, NEXT, YELLOW, none), (YELLOW, NEXT, RED, none)] Data.nil rfl
      (by
        intro r hr
        simp only [List.mem_cons, List.mem_singleton, List.not_mem_nil, or_false] at hr
        rcases hr with rfl | rfl <;> decide)
      rfl (by intro a h; cases h),
    rfl, rfl, rfl, rfl⟩

/-- C14: on a machine whose table was built by `AddTransition` calls, `Trigger`
returns an error exactly when no transition is registered for the current state
and the event, or the registered transition has an action that returns an error
on these arguments; and whenever it returns an error the machine, current state
and table, is as before. -/
theorem map_Trigger_error_iff (initial : State) (regs : List Registration) (f : FSM)
    (event : Event) (data : Data)
    (htab : f.transitions = (regs.foldl register (NewFSM initial)).transitions) :
    ((Trigger f event data).2 ≠ none ↔
        (registered regs f.current event = none ∨
          ∃ tr a err, registered regs f.current event = some tr ∧ tr.Action = some a ∧
            a f.current tr.To data = some err)) ∧
      ((Trigger f event data).2 ≠ none → (Trigger f event data).1 = f) := by
  rw [Trigger_eq_lookup, lookup_built initial regs f htab]
  cases hreg : registered regs f.current event with
  | none => simp
  | some tr =>
    cases hact : tr.Action with
    | none => simp [hact]
    | some a =>
      cases hres : a f.current tr.To data with
      | none =>
        simp only [hact, hres, ne_eq, not_true_eq_false, false_iff, not_or, not_exists,
          not_and, false_implies, and_true, reduceCtorEq, not_false_eq_true, true_and]
        intro tr1 a1 err h1 h2
        cases h1
        rw [hact] at h2
        cases h2
        rw [hres]
        simp
      | some err =>
        simp only [hact, hres, ne_eq, reduceCtorEq, not_false_eq_true, true_iff,
          false_or, implies_true, and_true]
        exact ⟨tr, a, err, rfl, hact, hres⟩

/-- C14 witness: the vending machine of the test in state IDLE; INSERT_COIN and
DELIVER both return an error and leave the machine in IDLE. -/
theorem map_Trigger_error_iff_witness :
    vendingFSM.transitions
        = (vendingRegistrations.foldl register (NewFSM IDLE)).transitions ∧
      (((Trigger vendingFSM INSERT_COIN (Data.float64 (Float64.finite 5))).2 ≠ none ↔
          (registered vendingRegistrations vendingFSM.current INSERT_COIN = none ∨
            ∃ tr a err, registered vendingRegistrations vendingFSM.current INSERT_COIN
                = some tr ∧ tr.Action = some a ∧
              a vendingFSM.current tr.To (Data.float64 (Float64.finite 5)) = some err)) ∧
        ((Trigger vendingFSM INSERT_COIN (Data.float64 (Float64.finite 5))).2 ≠ none →
          (Trigger vendingFSM INSERT_COIN (Data.float64 (Float64.finite 5))).1
            = vendingFSM)) ∧
      (Trigger vendingFSM INSERT_COIN (Data.float64 (Float64.finite 5))).2
        = some (TriggerError.invalidTransition IDLE INSERT_COIN) ∧
      (Trigger vendingFSM DELIVER Data.nil).2
        = some (TriggerError.invalidTransition IDLE DELIVER) ∧
      Current (Trigger vendingFSM DELIVER Data.nil).1 = IDLE :=
  ⟨rfl, map_Trigger_error_iff IDLE vendingRegistrations vendingFSM INSERT_COIN
      (Data.float64 (Float64.finite 5)) rfl, rfl, rfl, rfl⟩

end fsm

namespace table_base_fsm

open golang

/-- C15: whenever `Trigger` of the table-based machine returns an error, the
machine is exactly as before the call, so `CurrentState` is unchanged; the
error is the invalid-event error (event outside the event columns), the
invalid-transition error (empty cell), the action-index error (an index other
than INVALID_ACTION outside the action table) or the wrapped error of the
action. -/
theorem table_Trigger_error_keeps_state (fsm fsm1 : TableBasedFSM) (event : Int)
    (data : Data) (err : TriggerError)
    (h : Trigger fsm event data = some (fsm1, some err)) :
    fsm1 = fsm ∧ CurrentState fsm1 = CurrentState fsm ∧
      ((∃ row0, fsm.transitionTable[0]? = some row0 ∧
          (event < 0 ∨ (row0.length : Int) ≤ event) ∧
          err = TriggerError.invalidEvent event ((row0.length : Int) - 1)) ∨
        (∃ row cell, index fsm.transitionTable fsm.currentState = some row ∧
          index row event = some cell ∧ cell = emptyCell ∧
          err = TriggerError.invalidTransition fsm.currentState event) ∨
        (∃ idx, idx ≠ INVALID_ACTION ∧ (idx < 0 ∨ (fsm.actionTable.length : Int) ≤ idx) ∧
          err = TriggerError.actionIndex idx fsm.actionTable.length) ∨
        ∃ action src dst msg, action ∈ fsm.actionTable ∧ action src dst data = some msg ∧
          err = TriggerError.actionFailed msg) := by
  unfold Trigger at h
  split at h
  · cases h
  · rename_i row0 hrow0
    split at h
    · rename_i hev
      simp only [Option.some.injEq, Prod.mk.injEq] at h
      obtain ⟨rfl, rfl⟩ := h
      exact ⟨rfl, rfl, Or.inl ⟨row0, hrow0, hev, rfl⟩⟩
    · split at h
      · cases h
      · rename_i row hrow
        split at h
        · cases h
        · rename_i cell hcell
          split at h
          · rename_i hv
            simp only [Option.some.injEq, Prod.mk.injEq] at h
            obtain ⟨rfl, rfl⟩ := h
            refine ⟨rfl, rfl, Or.inr (Or.inl ⟨row, cell, hrow, hcell, ?_, rfl⟩)⟩
            apply isValidTransition_eq_false.mp
            simpa using hv
          · split at h
            · rename_i hi
              split at h
              · rename_i hb
                simp only [Option.some.injEq, Prod.mk.injEq] at h
                obtain ⟨rfl, rfl⟩ := h
                exact ⟨rfl, rfl, Or.inr (Or.inr (Or.inl ⟨cell.ActionIndex, hi, hb, rfl⟩))⟩
              · split at h
                · cases h
                · rename_i action ha
                  split at h
                  · rename_i msg hres
                    simp only [Option.some.injEq, Prod.mk.injEq] at h
                    obtain ⟨rfl, rfl⟩ := h
                    exact ⟨rfl, rfl, Or.inr (Or.inr (Or.inr
                      ⟨action, cell.From, cell.To, msg, (index_eq_some ha).2.2.2, hres, rfl⟩))⟩
                  · simp at h
            · simp at h

/-- C15 witness: the vending machine of the test after SELECT_ITEM; INSERT_COIN
with 1.0 returns the insufficient-amount error and the state is still
ITEM_SELECTED. -/
theorem table_Trigger_error_keeps_state_witness :
    ∃ f f1, vendingFSM = some f ∧
      Trigger f VENDING_SELECT_ITEM Data.nil = some (f1, none) ∧
      Trigger f1 VENDING_INSERT_COIN (Data.float64 (Float64.finite 1))
        = some (f1, some (TriggerError.actionFailed "投币金额不足")) ∧
      CurrentState f1 = VENDING_ITEM_SELECTED ∧
      (f1 = f1 ∧ CurrentState f1 = CurrentState f1 ∧
        ((∃ row0, f1.transitionTable[0]? = some row0 ∧
            (VENDING_INSERT_COIN < 0 ∨ (row0.length : Int) ≤ VENDING_INSERT_COIN) ∧
            TriggerError.actionFailed "投币金额不足"
              = TriggerError.invalidEvent VENDING_INSERT_COIN ((row0.length : Int) - 1)) ∨
          (∃ row cell, index f1.transitionTable f1.currentState = some row ∧
            index row VENDING_INSERT_COIN = some cell ∧ cell = emptyCell ∧
            TriggerError.actionFailed "投币金额不足"
              = TriggerError.invalidTransition f1.currentState VENDING_INSERT_COIN) ∨
          (∃ idx, idx ≠ INVALID_ACTION ∧
            (idx < 0 ∨ (f1.actionTable.length : Int) ≤ idx) ∧
            TriggerError.actionFailed "投币金额不足"
              = TriggerError.actionIndex idx f1.actionTable.length) ∨
          ∃ action src dst msg, action ∈ f1.actionTable ∧
            action src dst (Data.float64 (Float64.finite 1)) = some msg ∧
            TriggerError.actionFailed "投币金额不足" = TriggerError.actionFailed msg)) :=
  ⟨_, _, rfl, rfl, rfl, rfl,
    table_Trigger_error_keeps_state _ _ VENDING_INSERT_COIN
      (Data.float64 (Float64.finite 1)) (TriggerError.actionFailed "投币金额不足") rfl⟩

/-- C16: `NewTableBasedFSMWithTable` panics exactly when the table has no rows,
its first row has no cells, or the initial state is below 0 or not below the
number of rows; in every other case it returns the machine whose current state
is the initial state and whose two tables are the ones given. -/
theorem NewTableBasedFSMWithTable_panics_iff (transitionTable : List (List Transition))
    (actionTable : List Action) (initialState : Int) :
    (NewTableBasedFSMWithTable transitionTable actionTable initialState = none ↔
        (transitionTable.length = 0 ∨
          (∃ row0, transitionTable[0]? = some row0 ∧ row0.length = 0) ∨
          initialState < 0 ∨ (transitionTable.length : Int) ≤ initialState)) ∧
      (¬ (transitionTable.length = 0 ∨
          (∃ row0, transitionTable[0]? = some row0 ∧ row0.length = 0) ∨
          initialState < 0 ∨ (transitionTable.length : Int) ≤ initialState) →
        ∃ fsm, NewTableBasedFSMWithTable transitionTable actionTable initialState = some fsm ∧
          CurrentState fsm = initialState ∧ fsm.transitionTable = transitionTable ∧
          fsm.actionTable = actionTable) := by
  cases transitionTable with
  | nil => simp [NewTableBasedFSMWithTable]
  | cons row0 rest =>
    by_cases h0 : row0.length = 0
    · have hn : NewTableBasedFSMWithTable (row0 :: rest) actionTable initialState = none := by
        simp only [NewTableBasedFSMWithTable, h0, if_true]
      have hc : (row0 :: rest).length = 0 ∨
          (∃ r, (row0 :: rest)[0]? = some r ∧ r.length = 0) ∨
          initialState < 0 ∨ ((row0 :: rest).length : Int) ≤ initialState :=
        Or.inr (Or.inl ⟨row0, List.getElem?_cons_zero, h0⟩)
      exact ⟨⟨fun _ => hc, fun _ => hn⟩, fun h => absurd hc h⟩
    · by_cases h1 : initialState < 0 ∨ ((row0 :: rest).length : Int) ≤ initialState
      · have hn : NewTableBasedFSMWithTable (row0 :: rest) actionTable initialState
            = none := by
          simp only [NewTableBasedFSMWithTable, h0, if_false, h1, if_true]
        exact ⟨⟨fun _ => Or.inr (Or.inr h1), fun _ => hn⟩,
          fun h => absurd (Or.inr (Or.inr h1)) h⟩
      · have hs : NewTableBasedFSMWithTable (row0 :: rest) actionTable initialState
            = some { transitionTable := row0 :: rest
                     actionTable := actionTable
                     currentState := initialState } := by
          simp only [NewTableBasedFSMWithTable, h0, if_false, h1]
        have hc : ¬ ((row0 :: rest).length = 0 ∨
            (∃ r, (row0 :: rest)[0]? = some r ∧ r.length = 0) ∨
            initialState < 0 ∨ ((row0 :: rest).length : Int) ≤ initialState) := by
          rintro (h | ⟨r, hr, hr0⟩ | h)
          · simp at h
          · simp only [List.getElem?_cons_zero, Option.some.injEq] at hr
            subst hr
            exact h0 hr0
          · exact h1 h
        refine ⟨⟨fun h => ?_, fun h => absurd h hc⟩, fun _ => ⟨_, hs, rfl, rfl, rfl⟩⟩
        rw [hs] at h
        cases h

/-- C17, as stated, fails: in the machine built from the one-cell table whose
cell is the transition from state 0 on event 0 to state 0 with action 0, an
in-range action that returns nil, `Trigger` of event 0 in state 0 is rejected
as an invalid transition. -/
theorem table_Trigger_rejects_zero_cell :
    ∃ f cell action, NewTableBasedFSMWithTable selfLoopTable [fun _ _ _ => none] 0 = some f ∧
      Rectangular f.transitionTable ∧ CurrentState f = 0 ∧
      index f.transitionTable f.currentState = some [cell] ∧ index [cell] 0 = some cell ∧
      cell.From = f.currentState ∧ cell.Event = 0 ∧ cell.To = 0 ∧
      index f.actionTable cell.ActionIndex = some action ∧
      action cell.From cell.To Data.nil = none ∧
      Trigger f 0 Data.nil = some (f, some (TriggerError.invalidTransition 0 0)) := by
  refine ⟨_, _, _, rfl, ?_, rfl, rfl, rfl, rfl, rfl, rfl, rfl, rfl, rfl⟩
  intro row0 h0 row hrow
  simp only [selfLoopTable, List.getElem?_cons_zero, Option.some.injEq] at h0
  simp only [selfLoopTable, List.mem_singleton] at hrow
  rw [hrow, ← h0]

/-- C17, amended: in a rectangular table, if the cell of the current state and
the event was filled in as a transition of that state and event, is not the
all-zero transition (state 0, event 0, target 0, action 0), and its action is
INVALID_ACTION or an in-range action that returns nil, then `Trigger` returns
nil and sets the current state to the cell's target; and `Trigger` rejects a
cell as an invalid transition exactly when the cell is all zero. -/
theorem table_Trigger_filled_cell (fsm : TableBasedFSM) (event : Int) (data : Data)
    (row : List Transition) (cell : Transition) (hrect : Rectangular fsm.transitionTable)
    (hrow : index fsm.transitionTable fsm.currentState = some row)
    (hcell : index row event = some cell) :
    (cell.From = fsm.currentState → cell.Event = event → cell ≠ emptyCell →
        (cell.ActionIndex = INVALID_ACTION ∨
          ∃ action, index fsm.actionTable cell.ActionIndex = some action ∧
            action cell.From cell.To data = none) →
        Trigger fsm event data = some ({ fsm with currentState := cell.To }, none)) ∧
      (Trigger fsm event data
          = some (fsm, some (TriggerError.invalidTransition fsm.currentState event))
        ↔ cell = emptyCell) := by
  obtain ⟨row0, hrow0, _, he0, he1⟩ := cell_in_range hrect hrow hcell
  constructor
  · intro _ _ hnz hact
    have hv : isValidTransition cell = true := by
      cases hb : isValidTransition cell with
      | true => rfl
      | false => exact absurd (isValidTransition_eq_false.mp hb) hnz
    obtain ⟨r, hr, _, hok⟩ := Trigger_valid_cell data hrow0 he0 he1 hrow hcell hv
    rw [hr, hok hact]
  · constructor
    · intro ht
      cases hb : isValidTransition cell with
      | false => exact isValidTransition_eq_false.mp hb
      | true =>
        obtain ⟨r, hr, hrej, _⟩ := Trigger_valid_cell data hrow0 he0 he1 hrow hcell hb
        rw [ht] at hr
        cases hr
        cases hrej
    · intro hz
      exact Trigger_invalid_cell data hrow0 he0 he1 hrow hcell
        (isValidTransition_eq_false.mpr hz)

/-- C17 witness: the vending machine of the test in state IDLE with event
SELECT_ITEM. -/
theorem table_Trigger_filled_cell_witness :
    ∃ f row cell, vendingFSM = some f ∧ Rectangular f.transitionTable ∧
      index f.transitionTable f.currentState = some row ∧
      index row VENDING_SELECT_ITEM = some cell ∧
      (cell.From = f.currentState → cell.Event = VENDING_SELECT_ITEM → cell ≠ emptyCell →
          (cell.ActionIndex = INVALID_ACTION ∨
            ∃ action, index f.actionTable cell.ActionIndex = some action ∧
              action cell.From cell.To Data.nil = none) →
          Trigger f VENDING_SELECT_ITEM Data.nil
            = some ({ f with currentState := cell.To }, none)) ∧
      (Trigger f VENDING_SELECT_ITEM Data.nil
          = some (f, some (TriggerError.invalidTransition f.currentState VENDING_SELECT_ITEM))
        ↔ cell = emptyCell) := by
  have hrect : Rectangular VendingMachineTransitionTable := by
    intro row0 h0 row hrow
    simp only [VendingMachineTransitionTable, List.getElem?_cons_zero,
      Option.some.injEq] at h0
    simp only [VendingMachineTransitionTable, List.mem_cons, List.mem_singleton,
      List.not_mem_nil, or_false] at hrow
    rw [← h0]
    rcases hrow with rfl | rfl | rfl | rfl <;> rfl
  exact ⟨_, _, _, rfl, hrect, rfl, rfl,
    table_Trigger_filled_cell _ VENDING_SELECT_ITEM Data.nil _ _ hrect rfl rfl⟩

/-- C18: on a rectangular table with a valid current state `GetAvailableEvents`
returns, leaving the machine as it is, a strictly ascending list without
duplicates that holds exactly the events in the range of the event columns for
which `Trigger` is rejected neither as an invalid event nor as an invalid
transition. -/
theorem table_GetAvailableEvents_spec (fsm : TableBasedFSM) (data : Data)
    (hrect : Rectangular fsm.transitionTable) (h0 : 0 ≤ (fsm.currentState : Int))
    (h1 : (fsm.currentState : Int) < (fsm.transitionTable.length : Int)) :
    ∃ row0 events, fsm.transitionTable[0]? = some row0 ∧
      GetAvailableEvents fsm = some (fsm, events) ∧
      events.Pairwise (fun a b => a < b) ∧ events.Nodup ∧
      ∀ e : Int, e ∈ events ↔
        (0 ≤ e ∧ e < (row0.length : Int) ∧
          ∃ r, Trigger fsm e data = some r ∧ rejectedAsInvalid r.2 = false) := by
  obtain ⟨row, hrow⟩ := index_of_range fsm.transitionTable fsm.currentState h0 h1
  have h0i : @LE.le Int _ 0 fsm.currentState := h0
  have h1i : @LT.lt Int _ fsm.currentState (fsm.transitionTable.length : Int) := h1
  have hpos : 0 < fsm.transitionTable.length := by omega
  have hrow0 : fsm.transitionTable[0]? = some fsm.transitionTable[0] :=
    List.getElem?_eq_getElem hpos
  have hlen : row.length = (fsm.transitionTable[0]).length :=
    hrect _ hrow0 row (index_eq_some hrow).2.2.2
  have hloop := availableLoop_eq hrow (List.range (fsm.transitionTable[0]).length) []
    (fun n hn => by rw [hlen]; exact List.mem_range.mp hn)
  have hsorted : (((List.range (fsm.transitionTable[0]).length).filter
      fun n => validAt row n).map Int.ofNat).Pairwise (fun a b => a < b) := by
    apply List.Pairwise.map _ _ ((List.pairwise_lt_range _).filter _)
    intro a b hab
    exact Int.ofNat_lt.mpr hab
  refine ⟨_, _, hrow0, ?_, hsorted, hsorted.imp (fun h => ne_of_lt h), ?_⟩
  · simp only [GetAvailableEvents, hrow0, hloop, List.nil_append]
  · intro e
    simp only [List.mem_map, List.mem_filter, List.mem_range]
    constructor
    · rintro ⟨n, ⟨hn, hv⟩, rfl⟩
      have hn1 : n < row.length := by rw [hlen]; exact hn
      have hget : row[n]? = some row[n] := List.getElem?_eq_getElem hn1
      have hcell : index row (n : Int) = some row[n] := by rw [index_natCast]; exact hget
      have hv1 : isValidTransition row[n] = true := by
        simpa [validAt, hget] using hv
      obtain ⟨r, hr, hrej, _⟩ := Trigger_valid_cell data hrow0 (Int.ofNat_nonneg n)
        (Int.ofNat_lt.mpr hn) hrow hcell hv1
      exact ⟨Int.ofNat_nonneg n, Int.ofNat_lt.mpr hn, r, hr, hrej⟩
    · rintro ⟨he0, he1, r, hr, hrej⟩
      have hn : e.toNat < (fsm.transitionTable[0]).length := by omega
      have hn1 : e.toNat < row.length := by rw [hlen]; exact hn
      have hget : row[e.toNat]? = some row[e.toNat] := List.getElem?_eq_getElem hn1
      have hcast : ((e.toNat : Nat) : Int) = e := Int.toNat_of_nonneg he0
      have hcell : index row e = some row[e.toNat] := by
        simp only [index, not_lt.mpr he0, if_false]
        exact hget
      refine ⟨e.toNat, ⟨hn, ?_⟩, hcast⟩
      cases hv : isValidTransition row[e.toNat] with
      | true => simp [validAt, hget, hv]
      | false =>
        rw [Trigger_invalid_cell data hrow0 he0 he1 hrow hcell hv] at hr
        cases hr
        cases hrej

/-- C18 witness: the vending machine of the test in state IDLE offers exactly
event SELECT_ITEM. -/
theorem table_GetAvailableEvents_spec_witness :
    ∃ f, vendingFSM = some f ∧ GetAvailableEvents f = some (f, [VENDING_SELECT_ITEM]) ∧
      ∃ row0 events, f.transitionTable[0]? = some row0 ∧
        GetAvailableEvents f = some (f, events) ∧
        events.Pairwise (fun a b => a < b) ∧ events.Nodup ∧
        ∀ e : Int, e ∈ events ↔
          (0 ≤ e ∧ e < (row0.length : Int) ∧
            ∃ r, Trigger f e Data.nil = some r ∧ rejectedAsInvalid r.2 = false) := by
  have hrect : Rectangular VendingMachineTransitionTable := by
    intro row0 h0 row hrow
    simp only [VendingMachineTransitionTable, List.getElem?_cons_zero,
      Option.some.injEq] at h0
    simp only [VendingMachineTransitionTable, List.mem_cons, List.mem_singleton,
      List.not_mem_nil, or_false] at hrow
    rw [← h0]
    rcases hrow with rfl | rfl | rfl | rfl <;> rfl
  exact ⟨_, rfl, rfl,
    table_GetAvailableEvents_spec _ Data.nil hrect (by decide) (by decide)⟩

end table_base_fsm

namespace vending

open golang

/-- C19: under the state mapping IDLE = 0, ITEM_SELECTED = 1, COIN_INSERTED = 2,
DISPENSING = 3 and the event mapping SELECT_ITEM = 0, INSERT_COIN = 1,
DELIVER = 2, RESET = 3, for every finite sequence of events with their data the
map-based vending machine of `TestVendingMachine` and the table-based machine
built from `VendingMachineTransitionTable` and `VendingMachineActionTable`,
both started in IDLE, return an error on exactly the same steps and are in
corresponding states after every step; the table-based machine never panics. -/
theorem vending_machines_equivalent (inputs : List (VEvent × Data)) :
    ∃ tf trace, table_base_fsm.vendingFSM = some tf ∧
      tf.currentState = stateIndex VState.idle ∧
      fsm.vendingFSM.current = stateName VState.idle ∧
      tableTrace tf (inputs.map fun p => (eventIndex p.1, p.2)) = some trace ∧
      List.Forall₂
        (fun m t => m.1 = t.1 ∧ ∃ s, m.2 = stateName s ∧ t.2 = stateIndex s)
        (mapTrace fsm.vendingFSM (inputs.map fun p => (eventName p.1, p.2))) trace := by
  obtain ⟨trace, htr, hall⟩ := traces_agree VState.idle inputs
  exact ⟨tableAt VState.idle, trace, rfl, rfl, rfl, htr, hall⟩

end vending

namespace table_base_fsm

open golang

/-- C20: on the vending machine of the test, built by the constructor,
`Reset` to VENDING_STATE_MAX is accepted and leaves the current state 4 outside
the four rows of the table; the next `Trigger` and the next
`GetAvailableEvents` both index the table out of range and panic. -/
theorem Reset_leaves_row_range :
    ∃ f f1, vendingFSM = some f ∧ f.transitionTable.length = 4 ∧
      exec f [Op.reset VENDING_STATE_MAX] = some f1 ∧ CurrentState f1 = 4 ∧
      ¬ (0 ≤ f1.currentState ∧ f1.currentState < (f1.transitionTable.length : Int)) ∧
      Trigger f1 VENDING_SELECT_ITEM Data.nil = none ∧ GetAvailableEvents f1 = none ∧
      exec f [Op.reset VENDING_STATE_MAX, Op.trigger VENDING_SELECT_ITEM Data.nil] = none := by
  refine ⟨_, _, rfl, rfl, rfl, rfl, ?_, rfl, rfl, rfl⟩
  decide

end table_base_fsm

